import Mathlib

/-!
# Outbound ActivityPub delivery: pool sizing and per-domain circuit breaker

A shallow embedding of

* `getOutboundWorkerPoolSize` (activitypub/activitypub.go),
* the circuit breaker of activitypub/workerpool/outbound.go:
  `circuitBreakerBackoffDurations`, `domainFailure`, `failedDomains`,
  `shouldSkipDomain`, `recordDomainFailure`, `resetDomainFailure`,
* the queue and the workers of the same file: `InitOutboundWorkerPool`,
  `AddToOutboundQueue`, `worker`, `sendActivityPubMessageToInbox`, and
* `HashPassword`, `CompareHash`, `compressPassword` (utils/hashing.go).

Conventions of the embedding.

* Go `int64` and `int` (64 bit) values are Lean `Int`s. Where a value comes
  from outside (the follower count) the arithmetic is reduced with
  `wrapInt64`. The failure counter only ever grows by one per recorded
  failure, starting from zero; its wrap-around (after 2^63 failures) is not
  modelled.
* `time.Duration` is an `Int` number of nanoseconds, `time.Time` an `Int`
  number of nanoseconds on the clock's time line (the zero `time.Time` is 0);
  `t.Add(d)` is `t + d` and `t.Before(u)` is `t < u`.
* Every `time.Now()` in the source is an explicit argument. One
  `recordDomainFailure` call reads the clock twice (once for `lastFailed`,
  once for `backoffUntil`), so it takes two readings.
* The global map `failedDomains` is passed and returned explicitly; the mutex
  only serialises the calls and has no content in a sequential model.
* Indexing a slice out of range panics in Go; the embedding returns `none`.
* Log output is not modelled.
-/

namespace Oni

/-! ## Pool sizing (activitypub/activitypub.go) -/

/-- Two's complement reduction of an integer to the `int64` range. -/
def wrapInt64 (x : Int) : Int :=
  (x + 9223372036854775808) % 18446744073709551616 - 9223372036854775808

/-- Minimum workers for small instances. -/
def minWorkers : Int := 10

/-- Maximum workers to prevent resource exhaustion. -/
def maxWorkers : Int := 50

/-- Default for most instances. -/
def defaultWorkers : Int := 20

/-- The function `getOutboundWorkerPoolSize`. The arguments `fc` and `err` are
the two results of `persistence.GetFollowerCount()`: an `int64` count and an
error (`none` is Go's `nil`). Go's `/` on integers truncates toward zero,
which is `Int.tdiv`. -/
def getOutboundWorkerPoolSize (fc : Int) (err : Option String) : Int :=
  match err with
  | some _ => defaultWorkers
  | none =>
    let followerCount := fc
    let workers := wrapInt64 (minWorkers + wrapInt64 (Int.tdiv followerCount 100))
    if workers > maxWorkers then maxWorkers else workers

/-- The sizing formula in the words of the specification:
`workers = min(minWorkers + floor(followerCount / 100), maxWorkers)`. -/
def specWorkers (followerCount : Int) : Int :=
  min (minWorkers + Int.fdiv followerCount 100) maxWorkers

/-! ## Circuit breaker (activitypub/workerpool/outbound.go) -/

/-- Go's `time.Duration`: a count of nanoseconds. -/
abbrev Duration := Int

/-- Go's `time.Time`, as nanoseconds on the clock's time line. -/
abbrev Time := Int

/-- Go's `time.Second`. -/
def Second : Duration := 1000000000

/-- Go's `time.Minute`. -/
def Minute : Duration := 60 * Second

/-- Circuit breaker backoff durations for exponential backoff. -/
def circuitBreakerBackoffDurations : List Duration :=
  [ 1 * Minute,   -- 1st failure: 1 minute
    5 * Minute,   -- 2nd failure: 5 minutes
    15 * Minute,  -- 3rd failure: 15 minutes
    30 * Minute,  -- 4th failure: 30 minutes
    60 * Minute ] -- 5+ failures: 1 hour (max)

/-- The record type `domainFailure`. -/
structure domainFailure where
  count : Int
  lastFailed : Time
  backoffUntil : Time
  deriving DecidableEq, Repr

/-- The type of the global `failedDomains`: a map from domain to record;
`none` means the key is absent. -/
abbrev Registry := String → Option domainFailure

/-- The initial value of `failedDomains`: `make(map[string]*domainFailure)`. -/
def emptyRegistry : Registry := fun _ => none

/-- Map assignment `m[key] = value`. -/
def mapSet (m : Registry) (key : String) (value : domainFailure) : Registry :=
  fun k => if k = key then some value else m k

/-- Map deletion `delete(m, key)`. -/
def mapDelete (m : Registry) (key : String) : Registry :=
  fun k => if k = key then none else m k

/-- Slice indexing `s[i]` with a Go `int` index: out of range (negative or
at least `len(s)`) is a run-time panic, here `none`. -/
def sliceIndex (s : List Duration) (i : Int) : Option Duration :=
  if i < 0 then none else s[i.toNat]?

/-- The function `shouldSkipDomain`; `now` is the reading of `time.Now()`. -/
def shouldSkipDomain (failedDomains : Registry) (domain : String) (now : Time) : Bool :=
  match failedDomains domain with
  | none => false
  | some failure => decide (now < failure.backoffUntil)

/-- The function `recordDomainFailure`. `nowFailed` is the clock reading
stored in `lastFailed`, `nowBackoff` the later reading from which
`backoffUntil` is computed. The result is the registry after the call, or
`none` when the table lookup panics. -/
def recordDomainFailure (failedDomains : Registry) (domain : String)
    (nowFailed nowBackoff : Time) : Option Registry :=
  let failure : domainFailure :=
    match failedDomains domain with
    | some failure => failure
    | none => { count := 0, lastFailed := 0, backoffUntil := 0 }
  let count := failure.count + 1
  let backoffIndex := count - 1
  let backoffIndex : Int :=
    if backoffIndex ≥ (circuitBreakerBackoffDurations.length : Int) then
      (circuitBreakerBackoffDurations.length : Int) - 1
    else backoffIndex
  match sliceIndex circuitBreakerBackoffDurations backoffIndex with
  | none => none
  | some backoffDuration =>
    some (mapSet failedDomains domain
      { count := count, lastFailed := nowFailed, backoffUntil := nowBackoff + backoffDuration })

/-- The function `resetDomainFailure`. -/
def resetDomainFailure (failedDomains : Registry) (domain : String) : Registry :=
  match failedDomains domain with
  | some failure => if failure.count > 0 then mapDelete failedDomains domain else failedDomains
  | none => failedDomains

/-- A run of consecutive `recordDomainFailure` calls for one domain, one call
per pair of clock readings, stopping at the first panic. -/
def recordDomainFailures (failedDomains : Registry) (domain : String) :
    List (Time × Time) → Option Registry
  | [] => some failedDomains
  | c :: cs =>
    match recordDomainFailure failedDomains domain c.1 c.2 with
    | none => none
    | some next => recordDomainFailures next domain cs

/-- The backoff schedule in the words of the specification, 1-indexed by
failure count: 1st failure 1 minute, 2nd 5 minutes, 3rd 15 minutes, 4th 30
minutes, 5th and beyond 60 minutes. -/
def specBackoff (failureCount : Int) : Duration :=
  if failureCount ≤ 1 then 1 * Minute
  else if failureCount = 2 then 5 * Minute
  else if failureCount = 3 then 15 * Minute
  else if failureCount = 4 then 30 * Minute
  else 60 * Minute

/-- The failure count a domain has in the registry, 0 when it has no
record: the value `recordDomainFailure` increments. -/
def priorCount (failedDomains : Registry) (domain : String) : Int :=
  match failedDomains domain with
  | some failure => failure.count
  | none => 0

/-- The registry states the program can be in: the empty map the package
starts with, changed only by `recordDomainFailure` calls that return and by
`resetDomainFailure` calls. -/
inductive Reachable : Registry → Prop
  | init : Reachable emptyRegistry
  | record (reg reg' : Registry) (domain : String) (nowFailed nowBackoff : Time) :
      Reachable reg → recordDomainFailure reg domain nowFailed nowBackoff = some reg' →
      Reachable reg'
  | reset (reg : Registry) (domain : String) :
      Reachable reg → Reachable (resetDomainFailure reg domain)

/-! ## Delivery, queue and worker pool (activitypub/workerpool/outbound.go)

Further conventions.

* Of `*http.Request` the pool reads `URL.Host` and `RequestURI`; of
  `*http.Response` it reads `StatusCode` and `Status`.
* What `httpClient.Do(job.request)` returned is an argument (`Exchange`): the
  remote side is not part of the program. `net/http` returns a non-nil
  response exactly when the error is nil.
* A channel is its identity (the number of channels `make` created before
  it), its capacity and its buffered jobs, oldest first. The state follows the
  channel the global `queue` refers to. A send that cannot complete at once
  and a receive from an empty channel are reported as `blocked`; the limits
  of memory on `make` are not modelled.
* `go worker(i, queue)` statements are recorded in the order they run.
* The requests handed to `httpClient.Do` are recorded in `attempts`.
-/

/-- The fields of `*http.Request` that the pool reads. -/
structure Request where
  Host : String
  RequestURI : String
  deriving DecidableEq, Repr

/-- Job struct bundling the ActivityPub and the payload in one struct. -/
structure Job where
  request : Request
  deriving DecidableEq, Repr

/-- The fields of `*http.Response` that the pool reads. -/
structure Response where
  StatusCode : Int
  Status : String
  deriving DecidableEq, Repr

/-- What `httpClient.Do` returned: an error (`err != nil`), or a completed
exchange with its response. -/
inductive Exchange
  | failed (err : String)
  | completed (resp : Response)
  deriving DecidableEq, Repr

/-- The type `httpError`: an HTTP error response. -/
structure httpError where
  statusCode : Int
  message : String
  deriving DecidableEq, Repr

/-- The non-nil `error` values `sendActivityPubMessageToInbox` returns: the
error of `httpClient.Do` passed on, or a `*httpError`. -/
inductive DeliveryError
  | transport (err : String)
  | http (e : httpError)
  deriving DecidableEq, Repr

/-- The function `sendActivityPubMessageToInbox`; `exchange` is the result of
`httpClient.Do(job.request)`. The result `none` is Go's `nil` error. -/
def sendActivityPubMessageToInbox (_job : Job) (exchange : Exchange) : Option DeliveryError :=
  match exchange with
  | .failed err => some (.transport err)
  | .completed resp =>
    -- Consider HTTP 4xx and 5xx as failures for circuit breaker purposes
    if resp.StatusCode ≥ 400 then
      some (.http { statusCode := resp.StatusCode, message := resp.Status })
    else none

/-- The fields of `http.Transport` set by `InitOutboundWorkerPool`. -/
structure HttpTransport where
  MaxIdleConns : Int
  MaxIdleConnsPerHost : Int
  IdleConnTimeout : Duration
  DisableKeepAlives : Bool
  deriving DecidableEq, Repr

/-- The fields of `http.Client` set by `InitOutboundWorkerPool`. -/
structure HttpClient where
  Timeout : Duration
  Transport : HttpTransport
  deriving DecidableEq, Repr

/-- A channel made by `make(chan Job, capacity)`. -/
structure Chan where
  id : Nat
  capacity : Nat
  buffer : List Job
  deriving DecidableEq, Repr

/-- One executed `go worker(workerID, queue)` statement; `queue` is the
identity of the channel passed. -/
structure WorkerStart where
  workerID : Int
  queue : Nat
  deriving DecidableEq, Repr

/-- The state of the package: its globals `queue` (nil is `none`),
`httpClient` (nil is `none`) and `failedDomains`, the workers started, the
number of channels created, and the requests handed to `httpClient.Do`. -/
structure Pool where
  queue : Option Chan
  httpClient : Option HttpClient
  failedDomains : Registry
  started : List WorkerStart
  created : Nat
  attempts : List Request

/-- The state before any call: nil `queue` and `httpClient`, empty
`failedDomains`. -/
def initialPool : Pool :=
  { queue := none, httpClient := none, failedDomains := emptyRegistry,
    started := [], created := 0, attempts := [] }

/-- How a call ends: it returns (with the state or value after it), it
blocks on a channel operation, or it panics. -/
inductive Outcome (α : Type) where
  | returned (value : α)
  | blocked
  | panicked

/-- The loop `for i := 1; i <= workerPoolSize; i++ { go worker(i, queue) }`
of `InitOutboundWorkerPool`, from the value `i` of its counter on: the `go`
statements it runs, in order. -/
def startWorkers (workerPoolSize : Int) (queue : Nat) (i : Int) : List WorkerStart :=
  if i ≤ workerPoolSize then
    { workerID := i, queue := queue } :: startWorkers workerPoolSize queue (i + 1)
  else []
termination_by (workerPoolSize + 1 - i).toNat
decreasing_by omega

/-- The function `InitOutboundWorkerPool`. `make(chan Job, n)` panics for a
negative `n`, before anything is assigned: the result is then `none`. -/
def InitOutboundWorkerPool (pool : Pool) (workerPoolSize : Int) : Option Pool :=
  if workerPoolSize < 0 then none
  else
    let queue : Chan := { id := pool.created, capacity := workerPoolSize.toNat, buffer := [] }
    -- Initialize HTTP client with conservative timeouts and connection limits
    let httpClient : HttpClient :=
      { Timeout := 15 * Second,
        Transport :=
          { MaxIdleConns := 20,
            MaxIdleConnsPerHost := 2,
            IdleConnTimeout := 10 * Second,
            DisableKeepAlives := false } }
    -- start workers
    some { pool with
      queue := some queue,
      httpClient := some httpClient,
      created := pool.created + 1,
      started := pool.started ++ startWorkers workerPoolSize queue.id 1 }

/-- The function `AddToOutboundQueue`; `now` is the clock reading of the
`shouldSkipDomain` check. The `select` sends without blocking when the
buffer has room; otherwise its `default` branch runs the blocking send,
which waits for a worker. -/
def AddToOutboundQueue (pool : Pool) (req : Request) (now : Time) : Outcome Pool :=
  -- Check if domain should be skipped due to circuit breaker
  if shouldSkipDomain pool.failedDomains req.Host now then
    .returned pool
  else
    match pool.queue with
    | none => .blocked
    | some q =>
      if q.buffer.length < q.capacity then
        .returned { pool with queue := some { q with buffer := q.buffer ++ [{ request := req }] } }
      else .blocked

/-- The body of the loop `for job := range queue` of `worker`, for the job
received: deliver, then record a failure or reset. The result is the
registry afterwards, `none` on a panic. -/
def workerBody (failedDomains : Registry) (job : Job) (exchange : Exchange)
    (nowFailed nowBackoff : Time) : Option Registry :=
  match sendActivityPubMessageToInbox job exchange with
  | some _err => recordDomainFailure failedDomains job.request.Host nowFailed nowBackoff
  | none =>
    -- Reset domain failure count on success
    some (resetDomainFailure failedDomains job.request.Host)

/-- One iteration of the loop of `worker` by the started worker `w`: receive
the oldest job of the queue, run the loop body on it. The worker blocks when
it was not started on this queue or the queue holds no job. -/
def workerIteration (pool : Pool) (w : WorkerStart) (exchange : Exchange)
    (nowFailed nowBackoff : Time) : Outcome Pool :=
  match pool.queue with
  | none => .blocked
  | some q =>
    if w ∈ pool.started ∧ w.queue = q.id then
      match q.buffer with
      | [] => .blocked
      | job :: rest =>
        match workerBody pool.failedDomains job exchange nowFailed nowBackoff with
        | none => .panicked
        | some failedDomains =>
          .returned { pool with
            queue := some { q with buffer := rest },
            failedDomains := failedDomains,
            attempts := pool.attempts ++ [job.request] }
    else .blocked

/-- A producer calling `AddToOutboundQueue` for each request in turn, with
the clock reading of each call; it stops at the first call that does not
return. -/
def enqueueAll (pool : Pool) : List (Request × Time) → Outcome Pool
  | [] => .returned pool
  | (req, now) :: rest =>
    match AddToOutboundQueue pool req now with
    | .returned next => enqueueAll next rest
    | .blocked => .blocked
    | .panicked => .panicked

/-- A delivery: the worker that makes it, what `httpClient.Do` returned,
and the two clock readings of the loop body. -/
structure Delivery where
  worker : WorkerStart
  exchange : Exchange
  nowFailed : Time
  nowBackoff : Time

/-- Worker iterations run one after the other; it stops at the first one
that does not return. -/
def deliverAll (pool : Pool) : List Delivery → Outcome Pool
  | [] => .returned pool
  | d :: rest =>
    match workerIteration pool d.worker d.exchange d.nowFailed d.nowBackoff with
    | .returned next => deliverAll next rest
    | .blocked => .blocked
    | .panicked => .panicked

/-! ## Password hashing (utils/hashing.go) -/

/-- A byte. -/
abbrev Byte := Fin 256

/-- A Go `[]byte`, and a Go `string` seen as its bytes (the conversions
between the two keep the bytes). -/
abbrev Bytes := List Byte

/-- The result type `[64]byte` of `sha512.Sum512`. -/
abbrev Digest512 := { b : Bytes // b.length = 64 }

/-- The two functions of `golang.org/x/crypto/bcrypt` that the package
calls. `GenerateFromPassword` takes the password, the cost and the random
salt it draws; an error is `some`, Go's `nil` is `none`. -/
structure Bcrypt where
  GenerateFromPassword : Bytes → Int → Bytes → Bytes × Option String
  CompareHashAndPassword : Bytes → Bytes → Option String

/-- The function `compressPassword`: takes a password and computes a sha-512
hash of it if it is longer than 72 bytes. `sum512` is `sha512.Sum512`. -/
def compressPassword (sum512 : Bytes → Digest512) (password : Bytes) : Bytes :=
  if password.length > 72 then
    let sha512_hashed := sum512 password
    sha512_hashed.val
  else password

/-- The function `HashPassword`; `salt` is the randomness bcrypt draws. -/
def HashPassword (bcrypt : Bcrypt) (sum512 : Bytes → Digest512) (salt : Bytes)
    (password : Bytes) : Bytes × Option String :=
  let password_bytes := compressPassword sum512 password
  -- 0 will use the default cost of 10 instead
  let (hash, err) := bcrypt.GenerateFromPassword password_bytes 0 salt
  (hash, err)

/-- The function `CompareHash`. -/
def CompareHash (bcrypt : Bcrypt) (sum512 : Bytes → Digest512) (hash : Bytes)
    (password : Bytes) : Option String :=
  let password_bytes := compressPassword sum512 password
  bcrypt.CompareHashAndPassword hash password_bytes

/-- A stand-in for bcrypt whose hash is the password itself; it serves as
an instance on which the assumption made about bcrypt holds. -/
def plainBcrypt : Bcrypt :=
  { GenerateFromPassword := fun password _cost _salt => (password, none),
    CompareHashAndPassword := fun hash password =>
      if hash = password then none else some "mismatch" }

/-- A stand-in for `sha512.Sum512` that returns 64 zero bytes. -/
def zeroSum512 : Bytes → Digest512 :=
  fun _ => ⟨List.replicate 64 0, by simp⟩

/-! ## Calls on the registry as a trace -/

/-- The call `shouldSkipDomain` as a step on the state: its result together
with the registry after the call. The body takes the read lock, reads the
map and compares; it has no assignment to the map or to a record. -/
def shouldSkipDomainCall (failedDomains : Registry) (domain : String) (now : Time) :
    Bool × Registry :=
  match failedDomains domain with
  | none => (false, failedDomains)
  | some failure => (decide (now < failure.backoffUntil), failedDomains)

/-- A run of admission checks, one per domain and clock reading: the
registry after the last one. -/
def checksRun (failedDomains : Registry) : List (String × Time) → Registry
  | [] => failedDomains
  | (domain, now) :: rest => checksRun (shouldSkipDomainCall failedDomains domain now).2 rest

/-- The index `recordDomainFailure` reads `circuitBreakerBackoffDurations`
at: `failure.count - 1` after the increment, replaced by `len - 1` when it
is `len` or more. -/
def backoffIndex (failedDomains : Registry) (domain : String) : Int :=
  let failure : domainFailure :=
    match failedDomains domain with
    | some failure => failure
    | none => { count := 0, lastFailed := 0, backoffUntil := 0 }
  let count := failure.count + 1
  let backoffIndex := count - 1
  if backoffIndex ≥ (circuitBreakerBackoffDurations.length : Int) then
    (circuitBreakerBackoffDurations.length : Int) - 1
  else backoffIndex

/-- A call that changes the registry: `recordDomainFailure` with its two
clock readings, or `resetDomainFailure`. -/
inductive Op
  | record (domain : String) (nowFailed nowBackoff : Time)
  | reset (domain : String)
  deriving DecidableEq, Repr

/-- The registry after one call, `none` when the call panics. -/
def applyOp (failedDomains : Registry) : Op → Option Registry
  | .record domain nowFailed nowBackoff =>
    recordDomainFailure failedDomains domain nowFailed nowBackoff
  | .reset domain => some (resetDomainFailure failedDomains domain)

/-- The registry after a sequence of calls, applied first to last; `none`
when one of them panics. -/
def runOps (failedDomains : Registry) : List Op → Option Registry
  | [] => some failedDomains
  | op :: ops =>
    match applyOp failedDomains op with
    | none => none
    | some next => runOps next ops

/-- Counting along a sequence of calls, from the running value `c`: a
`recordDomainFailure` for the domain adds one, a `resetDomainFailure` for the
domain starts again at zero, calls for other domains leave the value. -/
def failuresSince (domain : String) : Nat → List Op → Nat
  | c, [] => c
  | c, .record d _ _ :: ops => failuresSince domain (if d = domain then c + 1 else c) ops
  | c, .reset d :: ops => failuresSince domain (if d = domain then 0 else c) ops

/-- The number of `recordDomainFailure` calls for the domain since its most
recent `resetDomainFailure` in the sequence, or since the start when the
sequence has no reset for the domain. -/
def failuresSinceReset (domain : String) (ops : List Op) : Nat :=
  failuresSince domain 0 ops

/-- Whether a call is a `recordDomainFailure` for the domain. -/
def Op.isRecordOf (domain : String) : Op → Bool
  | .record d _ _ => decide (d = domain)
  | .reset _ => false

/-- Whether a call is a `resetDomainFailure` for the domain. -/
def Op.isResetOf (domain : String) : Op → Bool
  | .record _ _ _ => false
  | .reset d => decide (d = domain)

/-! ## Pool sizing: theorems -/

/-- Truncated division by 100 in terms of the Euclidean quotient. -/
theorem tdiv_hundred (n : Int) :
    Int.tdiv n 100 = if 0 ≤ n then n / 100 else -((-n) / 100) := by
  split
  · next h => exact Int.tdiv_eq_ediv h (by decide)
  · next h =>
    have h0 : (0 : Int) ≤ -n := by omega
    have h1 : Int.tdiv (-(-n)) 100 = -(Int.tdiv (-n) 100) := Int.neg_tdiv (-n) 100
    rw [Int.neg_neg] at h1
    rw [h1, Int.tdiv_eq_ediv h0 (by decide)]

/-- C1: for every follower count `n` returned by a successful
follower-count lookup (a count of followers: a non-negative `int64`),
`getOutboundWorkerPoolSize` returns `min(10 + floor(n / 100), 50)`, the
specification's formula. Go's `/` truncates toward zero, which on
non-negative counts is the floor. -/
theorem getOutboundWorkerPoolSize_formula (n : Int)
    (h0 : 0 ≤ n) (hhi : n ≤ 9223372036854775807) :
    getOutboundWorkerPoolSize n none = min (10 + Int.fdiv n 100) 50 ∧
    getOutboundWorkerPoolSize n none = specWorkers n ∧
    getOutboundWorkerPoolSize n none = min (minWorkers + n / 100) maxWorkers := by
  have key : getOutboundWorkerPoolSize n none = min (10 + n / 100) 50 := by
    simp only [getOutboundWorkerPoolSize, wrapInt64, minWorkers, maxWorkers, tdiv_hundred]
    split <;> split <;> omega
  have hfloor : Int.fdiv n 100 = n / 100 := Int.fdiv_eq_ediv n (by decide)
  refine ⟨by rw [key, hfloor], ?_, key⟩
  rw [key, specWorkers, hfloor]
  rfl

/-- Witness for C1, at the follower counts 1234567 and 4000. -/
theorem getOutboundWorkerPoolSize_formula_witness :
    getOutboundWorkerPoolSize 1234567 none = min (10 + Int.fdiv 1234567 100) 50 ∧
    getOutboundWorkerPoolSize 4000 none = specWorkers 4000 :=
  ⟨(getOutboundWorkerPoolSize_formula 1234567 (by decide) (by decide)).1,
   (getOutboundWorkerPoolSize_formula 4000 (by decide) (by decide)).2.1⟩

/-- C2: with the lookup succeeding, the follower counts 0, 50, 100, 950 and
5000 give 10, 10, 11, 19 and 50 workers. -/
theorem getOutboundWorkerPoolSize_samples :
    getOutboundWorkerPoolSize 0 none = 10 ∧
    getOutboundWorkerPoolSize 50 none = 10 ∧
    getOutboundWorkerPoolSize 100 none = 11 ∧
    getOutboundWorkerPoolSize 950 none = 19 ∧
    getOutboundWorkerPoolSize 5000 none = 50 := by
  decide

/-- C3: when the follower-count lookup returns an error, the result is
exactly 20 (`defaultWorkers`), whatever count accompanies the error. -/
theorem getOutboundWorkerPoolSize_lookup_error (fc : Int) (e : String) :
    getOutboundWorkerPoolSize fc (some e) = 20 ∧
      getOutboundWorkerPoolSize fc (some e) = defaultWorkers :=
  ⟨rfl, rfl⟩

/-! ## Circuit breaker: lemmas -/

theorem mapSet_same (m : Registry) (k : String) (v : domainFailure) :
    mapSet m k v k = some v := by
  simp [mapSet]

theorem mapSet_other (m : Registry) (k : String) (v : domainFailure) (x : String)
    (h : x ≠ k) : mapSet m k v x = m x := by
  simp [mapSet, h]

theorem mapDelete_same (m : Registry) (k : String) : mapDelete m k k = none := by
  simp [mapDelete]

theorem mapDelete_other (m : Registry) (k x : String) (h : x ≠ k) :
    mapDelete m k x = m x := by
  simp [mapDelete, h]

/-- The table lookup of `recordDomainFailure`, for a counter that was
non-negative before the increment: the clamped index is in range and the
entry read is the schedule's duration for the new count. -/
theorem backoff_lookup (c : Int) (hc : 0 ≤ c) :
    sliceIndex circuitBreakerBackoffDurations
        (if c + 1 - 1 ≥ (circuitBreakerBackoffDurations.length : Int) then
          (circuitBreakerBackoffDurations.length : Int) - 1
        else c + 1 - 1)
      = some (specBackoff (c + 1)) := by
  have hcases : c = 0 ∨ c = 1 ∨ c = 2 ∨ c = 3 ∨ c = 4 ∨ 5 ≤ c := by omega
  rcases hcases with h | h | h | h | h | h
  · subst h; decide
  · subst h; decide
  · subst h; decide
  · subst h; decide
  · subst h; decide
  · have h1 : c + 1 - 1 ≥ (circuitBreakerBackoffDurations.length : Int) := by
      simp [circuitBreakerBackoffDurations]; omega
    have h2 : specBackoff (c + 1) = 60 * Minute := by
      unfold specBackoff
      rw [if_neg (by omega), if_neg (by omega), if_neg (by omega), if_neg (by omega)]
    rw [if_pos h1, h2]
    decide

/-- One `recordDomainFailure` call on a registry whose counter for the
domain is non-negative does not panic and stores the incremented count, the
first clock reading and the second reading plus the scheduled backoff. -/
theorem recordDomainFailure_step (reg : Registry) (d : String) (t₁ t₂ : Time)
    (h : 0 ≤ priorCount reg d) :
    recordDomainFailure reg d t₁ t₂ =
      some (mapSet reg d
        { count := priorCount reg d + 1, lastFailed := t₁,
          backoffUntil := t₂ + specBackoff (priorCount reg d + 1) }) := by
  unfold recordDomainFailure
  simp only []
  cases hr : reg d with
  | none =>
    have hp : priorCount reg d = 0 := by simp [priorCount, hr]
    simp only [hp]
    rw [backoff_lookup 0 (by decide)]
  | some f =>
    have hp : priorCount reg d = f.count := by simp [priorCount, hr]
    rw [hp] at h
    simp only [hp]
    rw [backoff_lookup f.count h]

theorem priorCount_mapSet (reg : Registry) (d : String) (v : domainFailure) :
    priorCount (mapSet reg d v) d = v.count := by
  simp [priorCount, mapSet]

theorem priorCount_of_none (reg : Registry) (d : String) (h : reg d = none) :
    priorCount reg d = 0 := by
  simp [priorCount, h]

/-- A positive counter means the domain has a record, with that count. -/
theorem record_of_priorCount_pos (reg : Registry) (d : String) (h : 0 < priorCount reg d) :
    ∃ f, reg d = some f ∧ f.count = priorCount reg d := by
  cases hr : reg d with
  | none => rw [priorCount_of_none reg d hr] at h; omega
  | some f => exact ⟨f, rfl, by simp [priorCount, hr]⟩

/-- The counter is non-negative when every record for the domain has a
non-negative count. -/
theorem priorCount_nonneg (reg : Registry) (d : String)
    (h : ∀ f, reg d = some f → 0 ≤ f.count) : 0 ≤ priorCount reg d := by
  cases hr : reg d with
  | none => rw [priorCount_of_none reg d hr]
  | some f =>
    have := h f hr
    simpa [priorCount, hr] using this

/-- A call that returns leaves every other domain untouched, whatever the
registry. -/
theorem recordDomainFailure_frame (reg reg' : Registry) (d x : String) (t₁ t₂ : Time)
    (h : recordDomainFailure reg d t₁ t₂ = some reg') (hx : x ≠ d) : reg' x = reg x := by
  unfold recordDomainFailure at h
  simp only [] at h
  split at h
  · exact absurd h (by simp)
  · next dur _ =>
    have h' := Option.some.inj h
    rw [← h']
    exact mapSet_other _ _ _ _ hx

/-- A run that returns leaves every other domain untouched. -/
theorem recordDomainFailures_frame (d x : String) (hx : x ≠ d) :
    ∀ (cs : List (Time × Time)) (reg reg' : Registry),
      recordDomainFailures reg d cs = some reg' → reg' x = reg x
  | [], reg, reg', h => by
    simp only [recordDomainFailures] at h
    rw [← Option.some.inj h]
  | c :: cs, reg, reg', h => by
    simp only [recordDomainFailures] at h
    cases hstep : recordDomainFailure reg d c.1 c.2 with
    | none => rw [hstep] at h; exact absurd h (by simp)
    | some next =>
      rw [hstep] at h
      rw [recordDomainFailures_frame d x hx cs next reg' h]
      exact recordDomainFailure_frame reg next d x c.1 c.2 hstep hx

/-- A run on a registry whose counter for the domain is non-negative never
panics; the counter grows by the number of calls. -/
theorem recordDomainFailures_run (d : String) :
    ∀ (cs : List (Time × Time)) (reg : Registry), 0 ≤ priorCount reg d →
      ∃ reg', recordDomainFailures reg d cs = some reg' ∧
        priorCount reg' d = priorCount reg d + (cs.length : Int)
  | [], reg, _ => ⟨reg, rfl, by simp⟩
  | c :: cs, reg, h => by
    have hstep := recordDomainFailure_step reg d c.1 c.2 h
    obtain ⟨reg', hrun, hcount⟩ :=
      recordDomainFailures_run d cs
        (mapSet reg d
          { count := priorCount reg d + 1, lastFailed := c.1,
            backoffUntil := c.2 + specBackoff (priorCount reg d + 1) })
        (by rw [priorCount_mapSet]; show 0 ≤ priorCount reg d + 1; omega)
    refine ⟨reg', ?_, ?_⟩
    · simp only [recordDomainFailures, hstep]
      exact hrun
    · rw [hcount, priorCount_mapSet]
      simp only [List.length_cons, Nat.cast_add, Nat.cast_one]
      omega

/-- A run over `pre ++ post` is the run over `pre` followed by the run over
`post`. -/
theorem recordDomainFailures_append (d : String) :
    ∀ (pre : List (Time × Time)) (reg : Registry) (post : List (Time × Time)),
      recordDomainFailures reg d (pre ++ post) =
        match recordDomainFailures reg d pre with
        | none => none
        | some mid => recordDomainFailures mid d post
  | [], reg, post => by simp [recordDomainFailures]
  | c :: pre, reg, post => by
    simp only [List.cons_append, recordDomainFailures]
    cases recordDomainFailure reg d c.1 c.2 with
    | none => rfl
    | some next => exact recordDomainFailures_append d pre next post

/-- The record left by the last call of a non-panicking run: the count is
the prior count plus the number of calls, the times are the last call's
readings, the backoff is the schedule's at the new count. -/
theorem recordDomainFailures_last (reg : Registry) (d : String)
    (pre : List (Time × Time)) (c : Time × Time) (h : 0 ≤ priorCount reg d) :
    ∃ reg', recordDomainFailures reg d (pre ++ [c]) = some reg' ∧
      reg' d = some
        { count := priorCount reg d + (pre.length : Int) + 1, lastFailed := c.1,
          backoffUntil := c.2 + specBackoff (priorCount reg d + (pre.length : Int) + 1) } := by
  obtain ⟨mid, hmid, hcount⟩ := recordDomainFailures_run d pre reg h
  have hstep := recordDomainFailure_step mid d c.1 c.2 (by rw [hcount]; omega)
  rw [hcount] at hstep
  refine ⟨mapSet mid d
    { count := priorCount reg d + (pre.length : Int) + 1, lastFailed := c.1,
      backoffUntil := c.2 + specBackoff (priorCount reg d + (pre.length : Int) + 1) },
    ?_, mapSet_same _ _ _⟩
  rw [recordDomainFailures_append, hmid]
  simp only [recordDomainFailures, hstep]

theorem resetDomainFailure_of_pos (reg : Registry) (d : String) (f : domainFailure)
    (hr : reg d = some f) (hc : 0 < f.count) :
    resetDomainFailure reg d = mapDelete reg d := by
  simp [resetDomainFailure, hr, hc]

theorem shouldSkipDomain_of_none (reg : Registry) (d : String) (now : Time)
    (h : reg d = none) : shouldSkipDomain reg d now = false := by
  simp [shouldSkipDomain, h]

theorem shouldSkipDomain_of_some (reg : Registry) (d : String) (now : Time)
    (f : domainFailure) (h : reg d = some f) :
    shouldSkipDomain reg d now = decide (now < f.backoffUntil) := by
  simp [shouldSkipDomain, h]

/-! ## Circuit breaker: theorems -/

/-- C4: the table `circuitBreakerBackoffDurations` has exactly the five
entries 1, 5, 15, 30 and 60 minutes in this order, and the backoff that
`recordDomainFailure` applies at the k-th failure of a domain since it last
had no record (k = `pre.length + 1`: the call with readings `c`, after the
`pre.length` earlier calls) is 1, 5, 15 and 30 minutes for k = 1, 2, 3, 4 and
exactly 60 minutes for every k ≥ 5. The run never panics. -/
theorem backoff_schedule_kth_failure :
    circuitBreakerBackoffDurations =
        [1 * Minute, 5 * Minute, 15 * Minute, 30 * Minute, 60 * Minute] ∧
    circuitBreakerBackoffDurations =
        [60000000000, 300000000000, 900000000000, 1800000000000, 3600000000000] ∧
    ∀ (reg : Registry) (d : String) (pre : List (Time × Time)) (c : Time × Time),
      reg d = none →
      ∃ reg' f, recordDomainFailures reg d (pre ++ [c]) = some reg' ∧ reg' d = some f ∧
        f.count = (pre.length : Int) + 1 ∧
        (pre.length + 1 = 1 → f.backoffUntil - c.2 = 1 * Minute) ∧
        (pre.length + 1 = 2 → f.backoffUntil - c.2 = 5 * Minute) ∧
        (pre.length + 1 = 3 → f.backoffUntil - c.2 = 15 * Minute) ∧
        (pre.length + 1 = 4 → f.backoffUntil - c.2 = 30 * Minute) ∧
        (5 ≤ pre.length + 1 → f.backoffUntil - c.2 = 60 * Minute) := by
  refine ⟨rfl, by decide, ?_⟩
  intro reg d pre c hnone
  have h0 : priorCount reg d = 0 := priorCount_of_none reg d hnone
  obtain ⟨reg', hrun, hrec⟩ := recordDomainFailures_last reg d pre c (by rw [h0])
  rw [h0] at hrec
  refine ⟨reg', _, hrun, hrec, by simp, ?_, ?_, ?_, ?_, ?_⟩ <;> intro hk <;>
    simp only [add_sub_cancel_left, specBackoff] <;>
    split_ifs <;> first | rfl | omega

/-- Witness for C4: the third failure of a domain on the empty registry. -/
theorem backoff_schedule_kth_failure_witness :
    emptyRegistry "failing.example.com" = none ∧
    ∃ reg' f,
      recordDomainFailures emptyRegistry "failing.example.com" ([(0, 0), (1, 1)] ++ [(2, 2)])
        = some reg' ∧
      reg' "failing.example.com" = some f ∧ f.backoffUntil - 2 = 15 * Minute := by
  refine ⟨rfl, ?_⟩
  obtain ⟨reg', f, h1, h2, _, _, _, h3, _⟩ :=
    backoff_schedule_kth_failure.2.2 emptyRegistry "failing.example.com"
      [(0, 0), (1, 1)] (2, 2) rfl
  exact ⟨reg', f, h1, h2, h3 rfl⟩

/-- C5: `shouldSkipDomain` returns true if and only if the registry holds a
record for the domain and `now` is strictly before that record's
`backoffUntil`. In particular a domain is admitted in the initial empty
registry, whenever it has no record, and whenever its `backoffUntil` equals
or precedes `now`. -/
theorem shouldSkipDomain_iff (reg : Registry) (d : String) (now : Time) :
    (shouldSkipDomain reg d now = true ↔ ∃ f, reg d = some f ∧ now < f.backoffUntil) ∧
    shouldSkipDomain emptyRegistry d now = false ∧
    (reg d = none → shouldSkipDomain reg d now = false) ∧
    (∀ f, reg d = some f → f.backoffUntil ≤ now → shouldSkipDomain reg d now = false) := by
  refine ⟨?_, rfl, shouldSkipDomain_of_none reg d now, ?_⟩
  · cases hr : reg d with
    | none => simp [shouldSkipDomain, hr]
    | some f => simp [shouldSkipDomain, hr]
  · intro f hr hle
    rw [shouldSkipDomain_of_some reg d now f hr]
    simp only [decide_eq_false_iff_not]
    exact not_lt.mpr hle

/-- Witness for C5: a record whose `backoffUntil` is 100 is skipped at 99 and
admitted at 100. -/
theorem shouldSkipDomain_iff_witness :
    shouldSkipDomain (mapSet emptyRegistry "a.example" ⟨1, 40, 100⟩) "a.example" 99 = true ∧
    shouldSkipDomain (mapSet emptyRegistry "a.example" ⟨1, 40, 100⟩) "a.example" 100 = false :=
  ⟨(shouldSkipDomain_iff (mapSet emptyRegistry "a.example" ⟨1, 40, 100⟩) "a.example" 99).1.2
      ⟨⟨1, 40, 100⟩, by decide, by decide⟩,
   (shouldSkipDomain_iff (mapSet emptyRegistry "a.example" ⟨1, 40, 100⟩) "a.example" 100).2.2.2
      ⟨1, 40, 100⟩ (by decide) (by decide)⟩

/-- C6: starting from a registry with no record for `d`, three consecutive
`recordDomainFailure d` calls do not panic and leave a record whose
`backoffUntil` minus the third call's clock reading is 15 minutes;
`shouldSkipDomain d` at that reading (and at the call's earlier reading) is
true. After six consecutive calls the difference is 60 minutes. -/
theorem three_and_six_failures (reg : Registry) (d : String) (hnone : reg d = none)
    (c₁ c₂ c₃ c₄ c₅ c₆ : Time × Time) :
    ∃ reg₃ f₃ reg₆ f₆,
      recordDomainFailures reg d [c₁, c₂, c₃] = some reg₃ ∧ reg₃ d = some f₃ ∧
      shouldSkipDomain reg₃ d c₃.2 = true ∧
      (c₃.1 ≤ c₃.2 → shouldSkipDomain reg₃ d c₃.1 = true) ∧
      f₃.count = 3 ∧ f₃.backoffUntil - c₃.2 = 15 * Minute ∧
      recordDomainFailures reg d [c₁, c₂, c₃, c₄, c₅, c₆] = some reg₆ ∧ reg₆ d = some f₆ ∧
      f₆.count = 6 ∧ f₆.backoffUntil - c₆.2 = 60 * Minute := by
  have h0 : priorCount reg d = 0 := priorCount_of_none reg d hnone
  obtain ⟨reg₃, hrun₃, hrec₃⟩ := recordDomainFailures_last reg d [c₁, c₂] c₃ (by rw [h0])
  obtain ⟨reg₆, hrun₆, hrec₆⟩ :=
    recordDomainFailures_last reg d [c₁, c₂, c₃, c₄, c₅] c₆ (by rw [h0])
  rw [h0] at hrec₃ hrec₆
  have hs₃ : specBackoff (0 + (([c₁, c₂] : List (Time × Time)).length : Int) + 1)
      = 15 * Minute := by
    simp only [List.length_cons, List.length_nil]
    decide
  have hs₆ : specBackoff (0 + (([c₁, c₂, c₃, c₄, c₅] : List (Time × Time)).length : Int) + 1)
      = 60 * Minute := by
    simp only [List.length_cons, List.length_nil]
    decide
  rw [hs₃] at hrec₃
  rw [hs₆] at hrec₆
  have hmin : (0 : Int) < 15 * Minute := by decide
  refine ⟨reg₃, _, reg₆, _, hrun₃, hrec₃, ?_, ?_, by simp, by simp, hrun₆, hrec₆,
    by simp, by simp⟩
  · rw [shouldSkipDomain_of_some reg₃ d c₃.2 _ hrec₃]
    simp only [decide_eq_true_eq]
    show c₃.2 < c₃.2 + 15 * Minute
    linarith
  · intro hle
    rw [shouldSkipDomain_of_some reg₃ d c₃.1 _ hrec₃]
    simp only [decide_eq_true_eq]
    show c₃.1 < c₃.2 + 15 * Minute
    linarith

/-- Witness for C6: six failures of one domain on the empty registry. -/
theorem three_and_six_failures_witness :
    emptyRegistry "failing.example.com" = none ∧
    ∃ reg₃ f₃ reg₆ f₆,
      recordDomainFailures emptyRegistry "failing.example.com" [(0, 1), (10, 11), (20, 21)]
        = some reg₃ ∧ reg₃ "failing.example.com" = some f₃ ∧
      shouldSkipDomain reg₃ "failing.example.com" 21 = true ∧
      f₃.backoffUntil - 21 = 15 * Minute ∧
      recordDomainFailures emptyRegistry "failing.example.com"
        [(0, 1), (10, 11), (20, 21), (30, 31), (40, 41), (50, 51)] = some reg₆ ∧
      reg₆ "failing.example.com" = some f₆ ∧ f₆.backoffUntil - 51 = 60 * Minute := by
  refine ⟨rfl, ?_⟩
  obtain ⟨reg₃, f₃, reg₆, f₆, h1, h2, h3, _, _, h4, h5, h6, _, h7⟩ :=
    three_and_six_failures emptyRegistry "failing.example.com" rfl
      (0, 1) (10, 11) (20, 21) (30, 31) (40, 41) (50, 51)
  exact ⟨reg₃, f₃, reg₆, f₆, h1, h2, h3, h4, h5, h6, h7⟩

/-- C7: for every n ≥ 1 (n = `cs.length`) and domain `d`, after n
`recordDomainFailure d` calls from a registry with no record for `d` (the
run does not panic and leaves a record of count n), one
`resetDomainFailure d` removes the record from the registry, so that the key
is absent, and `shouldSkipDomain d` then returns false at every time. -/
theorem reset_after_failures (reg : Registry) (d : String) (cs : List (Time × Time))
    (hnone : reg d = none) (hn : 1 ≤ cs.length) :
    ∃ regn f, recordDomainFailures reg d cs = some regn ∧
      regn d = some f ∧ f.count = (cs.length : Int) ∧
      resetDomainFailure regn d d = none ∧
      ∀ now, shouldSkipDomain (resetDomainFailure regn d) d now = false := by
  have h0 : priorCount reg d = 0 := priorCount_of_none reg d hnone
  obtain ⟨regn, hrun, hcount⟩ := recordDomainFailures_run d cs reg (by rw [h0])
  rw [h0] at hcount
  obtain ⟨f, hf, hfc⟩ := record_of_priorCount_pos regn d (by rw [hcount]; omega)
  have hreset : resetDomainFailure regn d = mapDelete regn d :=
    resetDomainFailure_of_pos regn d f hf (by rw [hfc, hcount]; omega)
  have hgone : resetDomainFailure regn d d = none := by
    rw [hreset]; exact mapDelete_same regn d
  refine ⟨regn, f, hrun, hf, by rw [hfc, hcount]; omega, hgone, fun now => ?_⟩
  exact shouldSkipDomain_of_none _ d now hgone

/-- Witness for C7: three failures, then a reset. -/
theorem reset_after_failures_witness :
    emptyRegistry "failing.example.com" = none ∧
    1 ≤ ([(0, 1), (10, 11), (20, 21)] : List (Time × Time)).length ∧
    ∃ regn f,
      recordDomainFailures emptyRegistry "failing.example.com" [(0, 1), (10, 11), (20, 21)]
        = some regn ∧
      regn "failing.example.com" = some f ∧ f.count = 3 ∧
      resetDomainFailure regn "failing.example.com" "failing.example.com" = none ∧
      shouldSkipDomain (resetDomainFailure regn "failing.example.com")
        "failing.example.com" 21 = false := by
  refine ⟨rfl, by decide, ?_⟩
  obtain ⟨regn, f, h1, h2, h3, h4, h5⟩ :=
    reset_after_failures emptyRegistry "failing.example.com" [(0, 1), (10, 11), (20, 21)]
      rfl (by decide)
  exact ⟨regn, f, h1, h2, h3, h4, h5 21⟩

/-- C8: for every n ≥ 1 (n = `cs.length`) and domain `d`, on a registry
where `d` has no record or a record with a non-negative count, the sequence
n × `recordDomainFailure d`, `resetDomainFailure d`, `recordDomainFailure d`
runs without panic and ends with the record of `d` having count 1,
`lastFailed` the last call's first clock reading and `backoffUntil` the last
call's second reading plus 1 minute: the record a single failure with the same
readings produces on the empty registry, independent of n. -/
theorem failure_after_reset (reg : Registry) (d : String) (cs : List (Time × Time))
    (c : Time × Time) (hwf : ∀ f, reg d = some f → 0 ≤ f.count) (hn : 1 ≤ cs.length) :
    ∃ regn reg' fresh, recordDomainFailures reg d cs = some regn ∧
      recordDomainFailure (resetDomainFailure regn d) d c.1 c.2 = some reg' ∧
      reg' d = some { count := 1, lastFailed := c.1, backoffUntil := c.2 + 1 * Minute } ∧
      recordDomainFailure emptyRegistry d c.1 c.2 = some fresh ∧
      reg' d = fresh d := by
  have h0 : 0 ≤ priorCount reg d := priorCount_nonneg reg d hwf
  obtain ⟨regn, hrun, hcount⟩ := recordDomainFailures_run d cs reg h0
  obtain ⟨f, hf, hfc⟩ := record_of_priorCount_pos regn d (by rw [hcount]; omega)
  have hreset : resetDomainFailure regn d = mapDelete regn d :=
    resetDomainFailure_of_pos regn d f hf (by rw [hfc, hcount]; omega)
  have hp : priorCount (mapDelete regn d) d = 0 :=
    priorCount_of_none _ d (mapDelete_same regn d)
  have hpe : priorCount emptyRegistry d = 0 := priorCount_of_none _ d rfl
  have hstep := recordDomainFailure_step (mapDelete regn d) d c.1 c.2 (by rw [hp])
  have hfresh := recordDomainFailure_step emptyRegistry d c.1 c.2 (by rw [hpe])
  rw [hp] at hstep
  rw [hpe] at hfresh
  have hs : specBackoff (0 + 1) = 1 * Minute := by decide
  rw [hs] at hstep hfresh
  rw [← hreset] at hstep
  refine ⟨regn, _, _, hrun, hstep, mapSet_same _ _ _, hfresh, ?_⟩
  rw [mapSet_same, mapSet_same]

/-- Witness for C8: four failures, a reset, one more failure. -/
theorem failure_after_reset_witness :
    (∀ f, emptyRegistry "failing.example.com" = some f → 0 ≤ f.count) ∧
    1 ≤ ([(0, 1), (10, 11), (20, 21), (30, 31)] : List (Time × Time)).length ∧
    ∃ regn reg',
      recordDomainFailures emptyRegistry "failing.example.com"
        [(0, 1), (10, 11), (20, 21), (30, 31)] = some regn ∧
      recordDomainFailure (resetDomainFailure regn "failing.example.com")
        "failing.example.com" 40 41 = some reg' ∧
      reg' "failing.example.com" =
        some { count := 1, lastFailed := 40, backoffUntil := 41 + 1 * Minute } := by
  have hwf : ∀ f, emptyRegistry "failing.example.com" = some f → 0 ≤ f.count :=
    fun f hf => absurd hf (by simp [emptyRegistry])
  refine ⟨hwf, by decide, ?_⟩
  obtain ⟨regn, reg', _, h1, h2, h3, _, _⟩ :=
    failure_after_reset emptyRegistry "failing.example.com"
      [(0, 1), (10, 11), (20, 21), (30, 31)] (40, 41) hwf (by decide)
  exact ⟨regn, reg', h1, h2, h3⟩

/-- C9 (as stated, refuted): after one failure recorded at time 0 the
domain is backed off until one minute later; with no call in between, the
check at time 0 answers true and the check at one minute answers false. So
two successive checks do not agree for every pair of check times. -/
theorem shouldSkipDomain_times_counterexample :
    (recordDomainFailure emptyRegistry "failing.example.com" 0 0).map
        (fun reg => (shouldSkipDomain reg "failing.example.com" 0,
          shouldSkipDomain reg "failing.example.com" 60000000000))
      = some (true, false) ∧
    ¬ (∀ (reg : Registry) (d : String) (t₁ t₂ : Time),
        shouldSkipDomain reg d t₁ = shouldSkipDomain reg d t₂) := by
  refine ⟨by decide, fun h => ?_⟩
  have h' := h (mapSet emptyRegistry "failing.example.com" ⟨1, 0, 60000000000⟩)
    "failing.example.com" 0 60000000000
  revert h'
  decide

/-- C9 (amended): `shouldSkipDomain` only reads the registry, and two
successive checks of one domain with no `recordDomainFailure` or
`resetDomainFailure` in between return the same boolean exactly when the
domain has no record or both check times are on the same side of the
record's `backoffUntil` (both strictly before it, or both at or after it). -/
theorem shouldSkipDomain_repeat (reg : Registry) (d : String) (t₁ t₂ : Time) :
    (shouldSkipDomain reg d t₁ = shouldSkipDomain reg d t₂ ↔
      ∀ f, reg d = some f → (t₁ < f.backoffUntil ↔ t₂ < f.backoffUntil)) ∧
    (reg d = none → shouldSkipDomain reg d t₁ = shouldSkipDomain reg d t₂) := by
  refine ⟨?_, fun hr => ?_⟩
  · cases hr : reg d with
    | none => simp [shouldSkipDomain, hr]
    | some f => simp [shouldSkipDomain, hr]
  · rw [shouldSkipDomain_of_none reg d t₁ hr, shouldSkipDomain_of_none reg d t₂ hr]

/-- Witness for C9 (amended): two checks inside the backoff window agree. -/
theorem shouldSkipDomain_repeat_witness :
    shouldSkipDomain (mapSet emptyRegistry "a.example" ⟨1, 40, 100⟩) "a.example" 50 =
      shouldSkipDomain (mapSet emptyRegistry "a.example" ⟨1, 40, 100⟩) "a.example" 99 :=
  (shouldSkipDomain_repeat (mapSet emptyRegistry "a.example" ⟨1, 40, 100⟩)
      "a.example" 50 99).1.2
    (fun f hf => by
      have hf' : f = ⟨1, 40, 100⟩ := by
        rw [mapSet_same] at hf
        exact (Option.some.inj hf).symm
      subst hf'
      decide)

/-- C10: for every registry and every two distinct domains `A` and `B`, a
run of any number of `recordDomainFailure A` calls that returns leaves the
record of `B` unchanged (presence, count, `lastFailed`, `backoffUntil`), so
`shouldSkipDomain B` returns the same value at every time before and after;
and the run does return whenever `A` has no record or a record with a
non-negative count. -/
theorem recordDomainFailures_isolation (reg : Registry) (A B : String)
    (cs : List (Time × Time)) (hAB : A ≠ B) :
    (∀ reg', recordDomainFailures reg A cs = some reg' →
      reg' B = reg B ∧
      ∀ now, shouldSkipDomain reg' B now = shouldSkipDomain reg B now) ∧
    ((∀ f, reg A = some f → 0 ≤ f.count) →
      ∃ reg', recordDomainFailures reg A cs = some reg') := by
  constructor
  · intro reg' hrun
    have hB : reg' B = reg B := recordDomainFailures_frame A B (Ne.symm hAB) cs reg reg' hrun
    refine ⟨hB, fun now => ?_⟩
    simp only [shouldSkipDomain, hB]
  · intro hwf
    obtain ⟨reg', hrun, _⟩ := recordDomainFailures_run A cs reg (priorCount_nonneg reg A hwf)
    exact ⟨reg', hrun⟩

/-- Witness for C10: three failures of one domain next to a backed-off
record of another. -/
theorem recordDomainFailures_isolation_witness :
    "test1.example.com" ≠ "test2.example.com" ∧
    ∃ reg',
      recordDomainFailures (mapSet emptyRegistry "test2.example.com" ⟨2, 5, 100⟩)
        "test1.example.com" [(0, 1), (10, 11), (20, 21)] = some reg' ∧
      reg' "test2.example.com" = some ⟨2, 5, 100⟩ ∧
      shouldSkipDomain reg' "test2.example.com" 50 = true := by
  have hne : "test1.example.com" ≠ "test2.example.com" := by decide
  have hthm := recordDomainFailures_isolation
    (mapSet emptyRegistry "test2.example.com" ⟨2, 5, 100⟩)
    "test1.example.com" "test2.example.com" [(0, 1), (10, 11), (20, 21)] hne
  have hA : mapSet emptyRegistry "test2.example.com" ⟨2, 5, 100⟩ "test1.example.com" = none := by
    decide
  obtain ⟨reg', hrun⟩ := hthm.2 (fun f hf => by rw [hA] at hf; exact absurd hf (by simp))
  obtain ⟨hB, hskip⟩ := hthm.1 reg' hrun
  refine ⟨hne, reg', hrun, ?_, ?_⟩
  · rw [hB]; decide
  · rw [hskip 50]; decide

/-! ## Delivery and worker pool: lemmas -/

/-- `resetDomainFailure` only removes: a record present afterwards was
present before. -/
theorem resetDomainFailure_some (reg : Registry) (d x : String) (f : domainFailure)
    (h : resetDomainFailure reg d x = some f) : reg x = some f := by
  cases hr : reg d with
  | none => simpa [resetDomainFailure, hr] using h
  | some g =>
    by_cases hc : g.count > 0
    · rw [resetDomainFailure_of_pos reg d g hr hc] at h
      by_cases hx : x = d
      · subst hx; rw [mapDelete_same] at h; exact absurd h (by simp)
      · rwa [mapDelete_other _ _ _ hx] at h
    · simpa [resetDomainFailure, hr, hc] using h

/-- `resetDomainFailure` leaves the other domains untouched. -/
theorem resetDomainFailure_other (reg : Registry) (d x : String) (hx : x ≠ d) :
    resetDomainFailure reg d x = reg x := by
  cases hr : reg d with
  | none => simp [resetDomainFailure, hr]
  | some g =>
    by_cases hc : g.count > 0
    · rw [resetDomainFailure_of_pos reg d g hr hc]
      exact mapDelete_other _ _ _ hx
    · simp [resetDomainFailure, hr, hc]

/-- In every reachable registry each record has a count of at least 1. -/
theorem Reachable.count_pos {reg : Registry} (hreach : Reachable reg) :
    ∀ (x : String) (f : domainFailure), reg x = some f → 1 ≤ f.count := by
  induction hreach with
  | init => intro x f h; exact absurd h (by simp [emptyRegistry])
  | record reg reg' d t₁ t₂ _ hstep ih =>
    intro x f hx
    have h0 : 0 ≤ priorCount reg d :=
      priorCount_nonneg reg d (fun g hg => by have := ih d g hg; omega)
    by_cases hxd : x = d
    · subst hxd
      rw [recordDomainFailure_step reg x t₁ t₂ h0] at hstep
      rw [← Option.some.inj hstep, mapSet_same] at hx
      rw [← Option.some.inj hx]
      show 1 ≤ priorCount reg x + 1
      omega
    · rw [recordDomainFailure_frame reg reg' d x t₁ t₂ hstep hxd] at hx
      exact ih x f hx
  | reset reg d _ ih =>
    intro x f hx
    exact ih x f (resetDomainFailure_some reg d x f hx)

/-- In a reachable registry `resetDomainFailure` leaves no record for the
domain. -/
theorem Reachable.reset_none {reg : Registry} (hreach : Reachable reg) (d : String) :
    resetDomainFailure reg d d = none := by
  cases hr : reg d with
  | none => simp [resetDomainFailure, hr]
  | some f =>
    have hpos : 0 < f.count := by have := hreach.count_pos d f hr; omega
    rw [resetDomainFailure_of_pos reg d f hr hpos]
    exact mapDelete_same reg d

/-- The `go` statements of the start loop from counter value `i` on, when
`m` iterations remain. -/
theorem startWorkers_eq (n : Int) (q : Nat) :
    ∀ (m : Nat) (i : Int), n + 1 - i = (m : Int) →
      startWorkers n q i =
        (List.range m).map (fun (k : Nat) => ({ workerID := i + (k : Int), queue := q } : WorkerStart))
  | 0, i, h => by
    rw [startWorkers, if_neg (by omega)]
    rfl
  | m + 1, i, h => by
    rw [startWorkers, if_pos (by omega), startWorkers_eq n q m (i + 1) (by omega),
      List.range_succ_eq_map, List.map_cons, List.map_map]
    simp only [Nat.cast_zero, add_zero, List.cons.injEq, true_and]
    apply List.map_congr_left
    intro k _
    simp only [Function.comp_apply, Nat.succ_eq_add_one, Nat.cast_add, Nat.cast_one]
    congr 1
    omega

/-! ## Delivery and worker pool: theorems -/

/-- C11: `sendActivityPubMessageToInbox` returns a non-nil error if and only
if the HTTP client returned a transport error or the response status code is
at least 400; the transport error is passed on, a status of at least 400
gives an `httpError` with that status; every completed exchange with a status
below 400 returns nil. -/
theorem sendActivityPubMessageToInbox_error_iff (job : Job) (exchange : Exchange) :
    (sendActivityPubMessageToInbox job exchange ≠ none ↔
      (∃ err, exchange = .failed err) ∨
      (∃ resp, exchange = .completed resp ∧ resp.StatusCode ≥ 400)) ∧
    (∀ err, exchange = .failed err →
      sendActivityPubMessageToInbox job exchange = some (.transport err)) ∧
    (∀ resp, exchange = .completed resp → resp.StatusCode ≥ 400 →
      sendActivityPubMessageToInbox job exchange =
        some (.http { statusCode := resp.StatusCode, message := resp.Status })) ∧
    (∀ resp, exchange = .completed resp → resp.StatusCode < 400 →
      sendActivityPubMessageToInbox job exchange = none) := by
  cases exchange with
  | failed err => simp [sendActivityPubMessageToInbox]
  | completed resp =>
    by_cases h : resp.StatusCode ≥ 400
    · simp [sendActivityPubMessageToInbox, h]
    · simp only [sendActivityPubMessageToInbox, if_neg h]
      refine ⟨?_, ?_, ?_, ?_⟩
      · simp [h]
      · intro err he; exact absurd he (by simp)
      · intro r hr hr4
        rw [← Exchange.completed.inj hr] at hr4
        exact absurd hr4 h
      · intro _ _ _; trivial

/-- Witness for C11: the statuses 399, 302 and 101 are successes, 400 is a
failure, and so is a transport error. -/
theorem sendActivityPubMessageToInbox_error_iff_witness :
    sendActivityPubMessageToInbox ⟨⟨"a.example", "/inbox"⟩⟩ (.completed ⟨399, "399"⟩) = none ∧
    sendActivityPubMessageToInbox ⟨⟨"a.example", "/inbox"⟩⟩ (.completed ⟨302, "302 Found"⟩)
      = none ∧
    sendActivityPubMessageToInbox ⟨⟨"a.example", "/inbox"⟩⟩
      (.completed ⟨101, "101 Switching Protocols"⟩) = none ∧
    sendActivityPubMessageToInbox ⟨⟨"a.example", "/inbox"⟩⟩ (.completed ⟨400, "400 Bad Request"⟩)
      ≠ none ∧
    sendActivityPubMessageToInbox ⟨⟨"a.example", "/inbox"⟩⟩ (.failed "timeout") ≠ none :=
  ⟨(sendActivityPubMessageToInbox_error_iff _ _).2.2.2 _ rfl (by decide),
   (sendActivityPubMessageToInbox_error_iff _ _).2.2.2 _ rfl (by decide),
   (sendActivityPubMessageToInbox_error_iff _ _).2.2.2 _ rfl (by decide),
   (sendActivityPubMessageToInbox_error_iff _ _).1.2 (Or.inr ⟨_, rfl, by decide⟩),
   (sendActivityPubMessageToInbox_error_iff _ _).1.2 (Or.inl ⟨_, rfl⟩)⟩

/-- C12: one worker iteration for a job whose URL host is `h`, in a reachable
registry. If the response status is 200 the registry afterwards has no
record for `h` (and the other domains are untouched). If the status is 404
or 500 the registry afterwards is the result of `recordDomainFailure h` on
the prior registry, which does not panic, the same for both statuses. -/
theorem worker_outcome_classification (reg : Registry) (hreach : Reachable reg)
    (job : Job) (s200 s404 s500 : String) (t₁ t₂ : Time) :
    (∃ reg', workerBody reg job (.completed ⟨200, s200⟩) t₁ t₂ = some reg' ∧
      reg' job.request.Host = none ∧ ∀ x, x ≠ job.request.Host → reg' x = reg x) ∧
    (∃ reg', recordDomainFailure reg job.request.Host t₁ t₂ = some reg' ∧
      workerBody reg job (.completed ⟨404, s404⟩) t₁ t₂ = some reg' ∧
      workerBody reg job (.completed ⟨500, s500⟩) t₁ t₂ = some reg') := by
  constructor
  · refine ⟨resetDomainFailure reg job.request.Host, rfl, hreach.reset_none _, ?_⟩
    intro x hx
    exact resetDomainFailure_other reg _ x hx
  · have h0 : 0 ≤ priorCount reg job.request.Host :=
      priorCount_nonneg reg _ (fun g hg => by have := hreach.count_pos _ g hg; omega)
    exact ⟨_, recordDomainFailure_step reg _ t₁ t₂ h0,
      recordDomainFailure_step reg _ t₁ t₂ h0, recordDomainFailure_step reg _ t₁ t₂ h0⟩

/-- Witness for C12: a registry reached by two failures of one host. -/
theorem worker_outcome_classification_witness :
    ∃ reg, Reachable reg ∧ reg "a.example" ≠ none ∧
      (∃ reg', workerBody reg ⟨⟨"a.example", "/inbox"⟩⟩ (.completed ⟨200, "200 OK"⟩) 7 8
          = some reg' ∧ reg' "a.example" = none) ∧
      (∃ reg', recordDomainFailure reg "a.example" 7 8 = some reg' ∧
        workerBody reg ⟨⟨"a.example", "/inbox"⟩⟩ (.completed ⟨404, "404 Not Found"⟩) 7 8
          = some reg' ∧
        workerBody reg ⟨⟨"a.example", "/inbox"⟩⟩
          (.completed ⟨500, "500 Internal Server Error"⟩) 7 8 = some reg') := by
  obtain ⟨r₁, h₁⟩ : ∃ r, recordDomainFailure emptyRegistry "a.example" 0 1 = some r :=
    ⟨_, recordDomainFailure_step _ _ _ _ (by decide)⟩
  have hr₁ : Reachable r₁ := Reachable.record _ _ _ _ _ Reachable.init h₁
  have hc₁ : 0 ≤ priorCount r₁ "a.example" :=
    priorCount_nonneg r₁ _ (fun g hg => by have := hr₁.count_pos _ g hg; omega)
  have h₂ := recordDomainFailure_step r₁ "a.example" 3 4 hc₁
  have hr₂ := Reachable.record _ _ _ _ _ hr₁ h₂
  have hw := worker_outcome_classification _ hr₂ ⟨⟨"a.example", "/inbox"⟩⟩
    "200 OK" "404 Not Found" "500 Internal Server Error" 7 8
  obtain ⟨⟨ra, ha₁, ha₂, _⟩, hb⟩ := hw
  exact ⟨_, hr₂, by rw [mapSet_same]; simp, ⟨ra, ha₁, ha₂⟩, hb⟩

/-- C13: for every request whose URL host is suppressed at the time of the
call, `AddToOutboundQueue` returns and leaves the whole state as it was: the
queue holds the same jobs, the registry is unchanged, and no request was
handed to the HTTP client. -/
theorem AddToOutboundQueue_suppressed (pool : Pool) (req : Request) (now : Time)
    (hskip : shouldSkipDomain pool.failedDomains req.Host now = true) :
    AddToOutboundQueue pool req now = .returned pool ∧
    ∃ pool', AddToOutboundQueue pool req now = .returned pool' ∧
      pool'.queue = pool.queue ∧ pool'.failedDomains = pool.failedDomains ∧
      pool'.attempts = pool.attempts := by
  have h : AddToOutboundQueue pool req now = .returned pool := by
    simp [AddToOutboundQueue, hskip]
  exact ⟨h, pool, h, rfl, rfl, rfl⟩

/-- Witness for C13: a queue with room and a host backed off until 100;
the request arrives at 50. -/
theorem AddToOutboundQueue_suppressed_witness :
    ∃ pool' : Pool,
      AddToOutboundQueue
        { queue := some ⟨0, 5, []⟩, httpClient := none,
          failedDomains := mapSet emptyRegistry "a.example" ⟨1, 0, 100⟩,
          started := [], created := 1, attempts := [] }
        ⟨"a.example", "/inbox"⟩ 50 = .returned pool' ∧
      pool'.queue = some ⟨0, 5, []⟩ ∧ pool'.attempts = [] :=
  let h := (AddToOutboundQueue_suppressed
    { queue := some ⟨0, 5, []⟩, httpClient := none,
      failedDomains := mapSet emptyRegistry "a.example" ⟨1, 0, 100⟩,
      started := [], created := 1, attempts := [] }
    ⟨"a.example", "/inbox"⟩ 50 (by decide)).2
  h.elim fun pool' hp => ⟨pool', hp.1, hp.2.1, hp.2.2.2⟩

/-- C14: for every pool size `n ≥ 0`, `InitOutboundWorkerPool n` returns and
afterwards the dispatch queue is empty and has capacity exactly `n`. -/
theorem InitOutboundWorkerPool_queue (pool : Pool) (n : Int) (hn : 0 ≤ n) :
    ∃ pool' q, InitOutboundWorkerPool pool n = some pool' ∧ pool'.queue = some q ∧
      q.buffer = [] ∧ (q.capacity : Int) = n := by
  refine ⟨_, _, by rw [InitOutboundWorkerPool, if_neg (by omega)], rfl, rfl, ?_⟩
  exact Int.toNat_of_nonneg hn

/-- Witness for C14: pool size 5, as in the package's test. -/
theorem InitOutboundWorkerPool_queue_witness :
    ∃ pool' q, InitOutboundWorkerPool initialPool 5 = some pool' ∧ pool'.queue = some q ∧
      q.buffer = [] ∧ (q.capacity : Int) = 5 :=
  InitOutboundWorkerPool_queue initialPool 5 (by decide)

/-- C15: for every pool size `n ≥ 0`, `InitOutboundWorkerPool n` returns and
starts exactly `n` workers, with the worker IDs 1, 2, ..., n in this order,
each on the channel the call has just created (a channel with an identity no
earlier `make` handed out), which is the one the global `queue` then refers
to. -/
theorem InitOutboundWorkerPool_workers (pool : Pool) (n : Int) (hn : 0 ≤ n) :
    ∃ pool' q new, InitOutboundWorkerPool pool n = some pool' ∧ pool'.queue = some q ∧
      q.id = pool.created ∧ pool'.created = pool.created + 1 ∧
      pool'.started = pool.started ++ new ∧
      (new.length : Int) = n ∧
      new = (List.range n.toNat).map
        (fun (k : Nat) => ({ workerID := 1 + (k : Int), queue := q.id } : WorkerStart)) ∧
      (∀ w, w ∈ new → w.queue = q.id ∧ 1 ≤ w.workerID ∧ w.workerID ≤ n) ∧
      (∀ i : Int, 1 ≤ i → i ≤ n → ({ workerID := i, queue := q.id } : WorkerStart) ∈ new) := by
  have hstart := startWorkers_eq n pool.created n.toNat 1
    (by rw [Int.toNat_of_nonneg hn]; omega)
  refine ⟨_, _, _, by rw [InitOutboundWorkerPool, if_neg (by omega)], rfl, rfl, rfl, rfl,
    ?_, hstart, ?_, ?_⟩
  · rw [hstart, List.length_map, List.length_range]
    exact Int.toNat_of_nonneg hn
  · intro w hw
    rw [hstart] at hw
    obtain ⟨k, hk, rfl⟩ := List.mem_map.mp hw
    have hk' := List.mem_range.mp hk
    refine ⟨rfl, ?_, ?_⟩
    · show (1 : Int) ≤ 1 + (k : Int)
      omega
    · show 1 + (k : Int) ≤ n
      omega
  · intro i h1 hi
    rw [hstart]
    refine List.mem_map.mpr ⟨(i - 1).toNat, List.mem_range.mpr (by omega), ?_⟩
    have : 1 + ((i - 1).toNat : Int) = i := by omega
    rw [this]

/-- Witness for C15: pool size 3 starts the workers 1, 2, 3 on the new
channel. -/
theorem InitOutboundWorkerPool_workers_witness :
    ∃ pool' q, InitOutboundWorkerPool initialPool 3 = some pool' ∧ pool'.queue = some q ∧
      pool'.started = [⟨1, q.id⟩, ⟨2, q.id⟩, ⟨3, q.id⟩] := by
  obtain ⟨pool', q, new, h1, h2, _, _, h3, _, h4, _⟩ :=
    InitOutboundWorkerPool_workers initialPool 3 (by decide)
  refine ⟨pool', q, h1, h2, ?_⟩
  rw [h3, h4]
  rfl

/-- C16: after `InitOutboundWorkerPool n`, for any `n`, the shared HTTP
client is non-nil and configured with request timeout 15 seconds, at most 20
idle connections overall, at most 2 idle connections per host,
idle-connection timeout 10 seconds, and keep-alives enabled: this holds of
the state after every call that returns, whatever `n` is, and the call does
return for every `n ≥ 0`. For `n < 0` there is no state after the call:
`make(chan Job, n)` panics. -/
theorem InitOutboundWorkerPool_client (pool : Pool) (n : Int) :
    (∀ pool', InitOutboundWorkerPool pool n = some pool' →
      ∃ c, pool'.httpClient = some c ∧
        c.Timeout = 15 * Second ∧ c.Timeout = 15000000000 ∧
        c.Transport.MaxIdleConns = 20 ∧ c.Transport.MaxIdleConnsPerHost = 2 ∧
        c.Transport.IdleConnTimeout = 10 * Second ∧
        c.Transport.IdleConnTimeout = 10000000000 ∧
        c.Transport.DisableKeepAlives = false) ∧
    (0 ≤ n → ∃ pool' c, InitOutboundWorkerPool pool n = some pool' ∧
      pool'.httpClient = some c ∧
      c.Timeout = 15 * Second ∧ c.Timeout = 15000000000 ∧
      c.Transport.MaxIdleConns = 20 ∧ c.Transport.MaxIdleConnsPerHost = 2 ∧
      c.Transport.IdleConnTimeout = 10 * Second ∧
      c.Transport.IdleConnTimeout = 10000000000 ∧
      c.Transport.DisableKeepAlives = false) ∧
    (n < 0 → InitOutboundWorkerPool pool n = none) := by
  refine ⟨?_, ?_, ?_⟩
  · intro pool' h
    unfold InitOutboundWorkerPool at h
    split at h
    · exact absurd h (by simp)
    · rw [← Option.some.inj h]
      exact ⟨_, rfl, rfl, by decide, rfl, rfl, rfl, by decide, rfl⟩
  · intro hn
    exact ⟨_, _, by rw [InitOutboundWorkerPool, if_neg (by omega)], rfl, rfl, by decide, rfl, rfl,
      rfl, by decide, rfl⟩
  · intro hn
    rw [InitOutboundWorkerPool, if_pos hn]

/-- Witness for C16: pool size 1, as in the package's test. -/
theorem InitOutboundWorkerPool_client_witness :
    ∃ pool' c, InitOutboundWorkerPool initialPool 1 = some pool' ∧
      pool'.httpClient = some c ∧ c.Timeout = 15 * Second ∧
      c.Transport.MaxIdleConns = 20 ∧ c.Transport.MaxIdleConnsPerHost = 2 ∧
      c.Transport.IdleConnTimeout = 10 * Second ∧ c.Transport.DisableKeepAlives = false := by
  obtain ⟨pool', c, h1, h2, h3, _, h4, h5, h6, _, h7⟩ :=
    (InitOutboundWorkerPool_client initialPool 1).2.1 (by decide)
  exact ⟨pool', c, h1, h2, h3, h4, h5, h6, h7⟩

/-! ## Password hashing: theorems -/

/-- C18: for every password `p`, if `HashPassword p` returns the hash `h`
without error then `CompareHash h p` returns nil, given that bcrypt's
comparison accepts every hash that bcrypt generated without error from the
same byte string: both functions hand bcrypt `compressPassword p`. -/
theorem CompareHash_of_HashPassword (bcrypt : Bcrypt) (sum512 : Bytes → Digest512)
    (salt p h : Bytes)
    (hbcrypt : ∀ (pw : Bytes) (cost : Int) (s hash : Bytes),
      bcrypt.GenerateFromPassword pw cost s = (hash, none) →
      bcrypt.CompareHashAndPassword hash pw = none)
    (hhash : HashPassword bcrypt sum512 salt p = (h, none)) :
    CompareHash bcrypt sum512 h p = none ∧
    (HashPassword bcrypt sum512 salt p =
      bcrypt.GenerateFromPassword (compressPassword sum512 p) 0 salt) ∧
    (CompareHash bcrypt sum512 h p =
      bcrypt.CompareHashAndPassword h (compressPassword sum512 p)) := by
  have hgen : HashPassword bcrypt sum512 salt p =
      bcrypt.GenerateFromPassword (compressPassword sum512 p) 0 salt := rfl
  refine ⟨?_, hgen, rfl⟩
  rw [hgen] at hhash
  exact hbcrypt _ _ _ _ hhash

/-- Witness for C18: the empty password and a password of 100 bytes, with
the stand-ins for bcrypt and SHA-512. -/
theorem CompareHash_of_HashPassword_witness :
    CompareHash plainBcrypt zeroSum512 (HashPassword plainBcrypt zeroSum512 [7] []).1 [] = none ∧
    CompareHash plainBcrypt zeroSum512
      (HashPassword plainBcrypt zeroSum512 [7] (List.replicate 100 97)).1
      (List.replicate 100 97) = none :=
  have hb : ∀ (pw : Bytes) (cost : Int) (s hash : Bytes),
      plainBcrypt.GenerateFromPassword pw cost s = (hash, none) →
      plainBcrypt.CompareHashAndPassword hash pw = none := by
    intro pw cost s hash hgen
    simp only [plainBcrypt, Prod.mk.injEq, and_true] at hgen
    simp [plainBcrypt, hgen]
  ⟨(CompareHash_of_HashPassword plainBcrypt zeroSum512 [7] [] _ hb rfl).1,
   (CompareHash_of_HashPassword plainBcrypt zeroSum512 [7] (List.replicate 100 97) _ hb rfl).1⟩

/-! ## Circuit breaker: single transitions -/

/-- C19: for every domain `d` with no record in the registry,
`recordDomainFailure d` returns and creates a record for `d` with count 1,
`lastFailed` the clock reading taken for it and `backoffUntil` the clock
reading taken for it plus 1 minute; read at one instant `now`, these are
`now` and `now + 1 minute`. The other domains are untouched. -/
theorem recordDomainFailure_first (reg : Registry) (d : String) (hnone : reg d = none) :
    (∀ nowFailed nowBackoff : Time, ∃ reg',
      recordDomainFailure reg d nowFailed nowBackoff = some reg' ∧
      reg' d = some { count := 1, lastFailed := nowFailed,
                      backoffUntil := nowBackoff + 1 * Minute } ∧
      ∀ x, x ≠ d → reg' x = reg x) ∧
    (∀ now : Time, ∃ reg', recordDomainFailure reg d now now = some reg' ∧
      reg' d = some { count := 1, lastFailed := now, backoffUntil := now + 1 * Minute }) := by
  have h0 : priorCount reg d = 0 := priorCount_of_none reg d hnone
  have hs : specBackoff (0 + 1) = 1 * Minute := by decide
  have key : ∀ t₁ t₂ : Time, recordDomainFailure reg d t₁ t₂ =
      some (mapSet reg d { count := 1, lastFailed := t₁, backoffUntil := t₂ + 1 * Minute }) := by
    intro t₁ t₂
    have hstep := recordDomainFailure_step reg d t₁ t₂ (by rw [h0])
    rw [h0, hs] at hstep
    exact hstep
  constructor
  · intro t₁ t₂
    exact ⟨_, key t₁ t₂, mapSet_same _ _ _, fun x hx => mapSet_other _ _ _ _ hx⟩
  · intro now
    exact ⟨_, key now now, mapSet_same _ _ _⟩

/-- Witness for C19: the first failure of a domain on the empty registry,
at time 1000. -/
theorem recordDomainFailure_first_witness :
    emptyRegistry "failing.example.com" = none ∧
    ∃ reg', recordDomainFailure emptyRegistry "failing.example.com" 1000 1000 = some reg' ∧
      reg' "failing.example.com" =
        some { count := 1, lastFailed := 1000, backoffUntil := 1000 + 1 * Minute } :=
  ⟨rfl, (recordDomainFailure_first emptyRegistry "failing.example.com" rfl).2 1000⟩

/-- C20: for every domain `d` that has a record with count `c ≥ 1`,
`recordDomainFailure d` returns and sets the count to `c + 1`, `lastFailed`
to the clock reading and `backoffUntil` to the clock reading plus the
schedule's backoff for `c + 1`, which is the entry `min(c, 4)` of the table.
The previous `backoffUntil` plays no part: the result is the same whether
or not it had elapsed at the time of the call. -/
theorem recordDomainFailure_escalates (reg : Registry) (d : String) (f : domainFailure)
    (hrec : reg d = some f) (hc : 1 ≤ f.count) (nowFailed nowBackoff : Time) :
    (∃ reg', recordDomainFailure reg d nowFailed nowBackoff = some reg' ∧
      reg' d = some { count := f.count + 1, lastFailed := nowFailed,
                      backoffUntil := nowBackoff + specBackoff (f.count + 1) } ∧
      ∀ x, x ≠ d → reg' x = reg x) ∧
    sliceIndex circuitBreakerBackoffDurations (min f.count 4) = some (specBackoff (f.count + 1)) ∧
    (∀ previous : Time,
      recordDomainFailure (mapSet reg d { f with backoffUntil := previous }) d
          nowFailed nowBackoff =
        recordDomainFailure reg d nowFailed nowBackoff) := by
  have hp : priorCount reg d = f.count := by simp [priorCount, hrec]
  have hstep := recordDomainFailure_step reg d nowFailed nowBackoff (by rw [hp]; omega)
  rw [hp] at hstep
  refine ⟨⟨_, hstep, mapSet_same _ _ _, fun x hx => mapSet_other _ _ _ _ hx⟩, ?_, ?_⟩
  · have hl := backoff_lookup f.count (by omega)
    have hidx : (if f.count + 1 - 1 ≥ (circuitBreakerBackoffDurations.length : Int) then
        (circuitBreakerBackoffDurations.length : Int) - 1 else f.count + 1 - 1)
        = min f.count 4 := by
      have hlen : (circuitBreakerBackoffDurations.length : Int) = 5 := by decide
      rw [hlen]
      split <;> omega
    rw [hidx] at hl
    exact hl
  · intro previous
    have hp' : priorCount (mapSet reg d { f with backoffUntil := previous }) d = f.count := by
      rw [priorCount_mapSet]
    have hstep' := recordDomainFailure_step
      (mapSet reg d { f with backoffUntil := previous }) d nowFailed nowBackoff
      (by rw [hp']; omega)
    rw [hp'] at hstep'
    rw [hstep, hstep']
    congr 1
    funext x
    by_cases hx : x = d
    · subst hx; rw [mapSet_same, mapSet_same]
    · rw [mapSet_other _ _ _ _ hx, mapSet_other _ _ _ _ hx, mapSet_other _ _ _ _ hx]

/-- Witness for C20: a record of count 2 whose backoff window (until 100)
has elapsed at the time of the third failure (5000). -/
theorem recordDomainFailure_escalates_witness :
    ∃ reg', recordDomainFailure (mapSet emptyRegistry "a.example" ⟨2, 40, 100⟩) "a.example"
        5000 5000 = some reg' ∧
      reg' "a.example" =
        some { count := 3, lastFailed := 5000, backoffUntil := 5000 + 15 * Minute } := by
  obtain ⟨reg', h1, h2, _⟩ :=
    (recordDomainFailure_escalates (mapSet emptyRegistry "a.example" ⟨2, 40, 100⟩)
      "a.example" ⟨2, 40, 100⟩ (by decide) (by decide) 5000 5000).1
  exact ⟨reg', h1, h2⟩

/-! ## Queue and worker steps -/

/-- A request to an admitted host, to a queue with room, is appended to
the buffer; nothing else changes. -/
theorem AddToOutboundQueue_room (pool : Pool) (q : Chan) (req : Request) (now : Time)
    (hq : pool.queue = some q)
    (hadm : shouldSkipDomain pool.failedDomains req.Host now = false)
    (hroom : q.buffer.length < q.capacity) :
    AddToOutboundQueue pool req now =
      .returned { pool with queue := some { q with buffer := q.buffer ++ [{ request := req }] } } := by
  simp [AddToOutboundQueue, hadm, hq, hroom]

/-- A worker iteration whose delivery fails, on a registry where the host's
counter is non-negative: the oldest job leaves the queue, its request is
handed to the HTTP client, and the failure is recorded. -/
theorem workerIteration_failure (pool : Pool) (q : Chan) (w : WorkerStart) (job : Job)
    (rest : List Job) (exchange : Exchange) (t₁ t₂ : Time)
    (hq : pool.queue = some q) (hbuf : q.buffer = job :: rest)
    (hw : w ∈ pool.started) (hwq : w.queue = q.id)
    (herr : sendActivityPubMessageToInbox job exchange ≠ none)
    (h0 : 0 ≤ priorCount pool.failedDomains job.request.Host) :
    workerIteration pool w exchange t₁ t₂ =
      .returned { pool with
        queue := some { q with buffer := rest },
        failedDomains := mapSet pool.failedDomains job.request.Host
          { count := priorCount pool.failedDomains job.request.Host + 1, lastFailed := t₁,
            backoffUntil :=
              t₂ + specBackoff (priorCount pool.failedDomains job.request.Host + 1) },
        attempts := pool.attempts ++ [job.request] } := by
  have hbody : workerBody pool.failedDomains job exchange t₁ t₂ =
      recordDomainFailure pool.failedDomains job.request.Host t₁ t₂ := by
    unfold workerBody
    cases hs : sendActivityPubMessageToInbox job exchange with
    | none => exact absurd hs herr
    | some e => rfl
  rw [recordDomainFailure_step _ _ t₁ t₂ h0] at hbody
  simp only [workerIteration, hq, hw, hwq, hbuf, hbody, and_self, if_true]

/-- A producer enqueueing requests to admitted hosts while the buffer has
room: every call returns and the jobs are appended in order; nothing else
changes. -/
theorem enqueueAll_room :
    ∀ (items : List (Request × Time)) (pool : Pool) (q : Chan),
      pool.queue = some q →
      (∀ it, it ∈ items → shouldSkipDomain pool.failedDomains it.1.Host it.2 = false) →
      q.buffer.length + items.length ≤ q.capacity →
      enqueueAll pool items =
        .returned { pool with
          queue := some { q with
            buffer := q.buffer ++ items.map (fun it => ({ request := it.1 } : Job)) } }
  | [], pool, q, hq, _, _ => by
    cases pool
    simp only [] at hq
    subst hq
    simp [enqueueAll]
  | (req, now) :: rest, pool, q, hq, hadm, hroom => by
    have hstep := AddToOutboundQueue_room pool q req now hq
      (hadm (req, now) (List.mem_cons_self _ _))
      (by simp only [List.length_cons] at hroom; omega)
    have ih := enqueueAll_room rest
      { pool with queue := some { q with buffer := q.buffer ++ [{ request := req }] } }
      { q with buffer := q.buffer ++ [{ request := req }] } rfl
      (fun it hit => hadm it (List.mem_cons_of_mem _ hit))
      (by simp only [List.length_cons, List.length_append, List.length_nil] at hroom ⊢; omega)
    simp only [enqueueAll, hstep, ih, List.map_cons, List.append_assoc, List.singleton_append]

/-- Workers delivering the oldest jobs of the queue, one iteration per job,
when every delivery fails, the jobs go to pairwise distinct hosts and none of
these hosts has a record: every iteration returns, the jobs leave the queue,
their requests are handed to the HTTP client in order, each host gets a
record of count 1 backed off for one minute from its clock reading, and no
other domain changes. -/
theorem deliverAll_failures :
    ∀ (ds : List Delivery) (jobs rest : List Job) (pool : Pool) (q : Chan),
      pool.queue = some q → q.buffer = jobs ++ rest → ds.length = jobs.length →
      (∀ d, d ∈ ds → d.worker ∈ pool.started ∧ d.worker.queue = q.id ∧
        ∀ j, sendActivityPubMessageToInbox j d.exchange ≠ none) →
      (jobs.map (fun j => j.request.Host)).Nodup →
      (∀ j, j ∈ jobs → pool.failedDomains j.request.Host = none) →
      ∃ p', deliverAll pool ds = .returned p' ∧
        p'.queue = some { q with buffer := rest } ∧
        p'.attempts = pool.attempts ++ jobs.map (fun j => j.request) ∧
        p'.started = pool.started ∧ p'.httpClient = pool.httpClient ∧
        (∀ x, x ∈ List.zip jobs ds →
          p'.failedDomains x.1.request.Host =
            some { count := 1, lastFailed := x.2.nowFailed,
                   backoffUntil := x.2.nowBackoff + 1 * Minute }) ∧
        (∀ h, h ∉ jobs.map (fun j => j.request.Host) →
          p'.failedDomains h = pool.failedDomains h)
  | [], [], rest, pool, q, hq, hbuf, _, _, _, _ => by
    refine ⟨pool, rfl, ?_, by simp, rfl, rfl, ?_, fun _ _ => rfl⟩
    · rw [hq]
      cases q
      simp only [List.nil_append] at hbuf
      subst hbuf
      rfl
    · intro x hx
      simp at hx
  | [], _ :: _, _, _, _, _, _, hlen, _, _, _ => by simp at hlen
  | _ :: _, [], _, _, _, _, _, hlen, _, _, _ => by simp at hlen
  | d :: ds, job :: jobs, rest, pool, q, hq, hbuf, hlen, hds, hnodup, hnone => by
    obtain ⟨hw, hwq, herr⟩ := hds d (List.mem_cons_self _ _)
    have hjob : pool.failedDomains job.request.Host = none := hnone job (List.mem_cons_self _ _)
    have h0 : priorCount pool.failedDomains job.request.Host = 0 :=
      priorCount_of_none _ _ hjob
    have hs : specBackoff (0 + 1) = 1 * Minute := by decide
    have hstep := workerIteration_failure pool q d.worker job (jobs ++ rest) d.exchange
      d.nowFailed d.nowBackoff hq (by rw [hbuf]; rfl) hw hwq (herr job) (by rw [h0])
    rw [h0, hs] at hstep
    simp only [List.map_cons, List.nodup_cons] at hnodup
    obtain ⟨hfresh, hnodup'⟩ := hnodup
    obtain ⟨p', hrun, hqueue, hatt, hstarted, hclient, hrecs, hframe⟩ :=
      deliverAll_failures ds jobs rest
        { pool with
          queue := some { q with buffer := jobs ++ rest },
          failedDomains := mapSet pool.failedDomains job.request.Host
            { count := 0 + 1, lastFailed := d.nowFailed,
              backoffUntil := d.nowBackoff + 1 * Minute },
          attempts := pool.attempts ++ [job.request] }
        { q with buffer := jobs ++ rest } rfl rfl
        (by simpa using hlen)
        (fun d' hd' => hds d' (List.mem_cons_of_mem _ hd'))
        hnodup'
        (fun j hj => by
          have hne : j.request.Host ≠ job.request.Host := by
            intro heq
            exact hfresh (heq ▸ List.mem_map.mpr ⟨j, hj, rfl⟩)
          show mapSet pool.failedDomains job.request.Host _ j.request.Host = none
          rw [mapSet_other _ _ _ _ hne]
          exact hnone j (List.mem_cons_of_mem _ hj))
    refine ⟨p', ?_, hqueue, ?_, hstarted, hclient, ?_, ?_⟩
    · simp only [deliverAll, hstep]
      exact hrun
    · rw [hatt]
      simp
    · intro x hx
      rw [List.zip_cons_cons, List.mem_cons] at hx
      rcases hx with rfl | hx
      · rw [hframe _ hfresh]
        exact mapSet_same _ _ _
      · exact hrecs x hx
    · intro h hh
      simp only [List.map_cons, List.mem_cons, not_or] at hh
      rw [hframe h hh.2]
      exact mapSet_other _ _ _ _ hh.1

/-- Every worker ID from 1 to `n` is started by the start loop. -/
theorem startWorkers_mem (n : Int) (q : Nat) (i : Int) (h1 : 1 ≤ i) (hn : i ≤ n) :
    ({ workerID := i, queue := q } : WorkerStart) ∈ startWorkers n q 1 := by
  rw [startWorkers_eq n q n.toNat 1 (by omega)]
  refine List.mem_map.mpr ⟨(i - 1).toNat, List.mem_range.mpr (by omega), ?_⟩
  have : 1 + ((i - 1).toNat : Int) = i := by omega
  rw [this]

/-- C17: the end-to-end scenario. From an empty registry,
`InitOutboundWorkerPool 5` returns; five `AddToOutboundQueue` calls for
requests to five pairwise distinct hosts all return and queue the five jobs;
five worker iterations (by any of the workers 1 to 5) whose deliveries
complete with status 503 all return and empty the queue. Afterwards each of
the five hosts has a record of count 1 with `backoffUntil` one minute after
the clock reading of its failure, `shouldSkipDomain` is true for it at that
reading, and a sixth request to it at any time before its `backoffUntil` makes
`AddToOutboundQueue` return with the state unchanged: nothing is queued and
nothing is handed to the HTTP client. -/
theorem five_failing_hosts_scenario (pool : Pool) (hempty : pool.failedDomains = emptyRegistry)
    (r₁ r₂ r₃ r₄ r₅ : Request)
    (hdistinct : [r₁.Host, r₂.Host, r₃.Host, r₄.Host, r₅.Host].Nodup)
    (e₁ e₂ e₃ e₄ e₅ : Time) (k₁ k₂ k₃ k₄ k₅ : Int)
    (hk : ∀ k, k ∈ [k₁, k₂, k₃, k₄, k₅] → 1 ≤ k ∧ k ≤ 5)
    (s₁ s₂ s₃ s₄ s₅ : String) (a₁ b₁ a₂ b₂ a₃ b₃ a₄ b₄ a₅ b₅ : Time) :
    ∃ p₁ q p₂ p₃,
      InitOutboundWorkerPool pool 5 = some p₁ ∧ p₁.queue = some q ∧
      q.capacity = 5 ∧ q.buffer = [] ∧
      enqueueAll p₁ [(r₁, e₁), (r₂, e₂), (r₃, e₃), (r₄, e₄), (r₅, e₅)] = .returned p₂ ∧
      p₂.queue = some { q with buffer := [⟨r₁⟩, ⟨r₂⟩, ⟨r₃⟩, ⟨r₄⟩, ⟨r₅⟩] } ∧
      deliverAll p₂
        [⟨⟨k₁, q.id⟩, .completed ⟨503, s₁⟩, a₁, b₁⟩, ⟨⟨k₂, q.id⟩, .completed ⟨503, s₂⟩, a₂, b₂⟩,
         ⟨⟨k₃, q.id⟩, .completed ⟨503, s₃⟩, a₃, b₃⟩, ⟨⟨k₄, q.id⟩, .completed ⟨503, s₄⟩, a₄, b₄⟩,
         ⟨⟨k₅, q.id⟩, .completed ⟨503, s₅⟩, a₅, b₅⟩] = .returned p₃ ∧
      p₃.queue = some q ∧
      p₃.attempts = pool.attempts ++ [r₁, r₂, r₃, r₄, r₅] ∧
      ∀ x, x ∈ [(r₁, a₁, b₁), (r₂, a₂, b₂), (r₃, a₃, b₃), (r₄, a₄, b₄), (r₅, a₅, b₅)] →
        p₃.failedDomains x.1.Host =
          some { count := 1, lastFailed := x.2.1, backoffUntil := x.2.2 + 1 * Minute } ∧
        shouldSkipDomain p₃.failedDomains x.1.Host x.2.2 = true ∧
        ∀ (r₆ : Request) (now : Time), r₆.Host = x.1.Host → now < x.2.2 + 1 * Minute →
          AddToOutboundQueue p₃ r₆ now = .returned p₃ := by
  have hinit : InitOutboundWorkerPool pool 5 = some
      { pool with
        queue := some { id := pool.created, capacity := (5 : Int).toNat, buffer := [] },
        httpClient := some
          { Timeout := 15 * Second,
            Transport :=
              { MaxIdleConns := 20, MaxIdleConnsPerHost := 2,
                IdleConnTimeout := 10 * Second, DisableKeepAlives := false } },
        created := pool.created + 1,
        started := pool.started ++ startWorkers 5 pool.created 1 } := by
    rw [InitOutboundWorkerPool, if_neg (by decide)]
  have henq := enqueueAll_room [(r₁, e₁), (r₂, e₂), (r₃, e₃), (r₄, e₄), (r₅, e₅)] _ _
    (rfl : ({ pool with
        queue := some { id := pool.created, capacity := (5 : Int).toNat, buffer := [] },
        httpClient := some
          { Timeout := 15 * Second,
            Transport :=
              { MaxIdleConns := 20, MaxIdleConnsPerHost := 2,
                IdleConnTimeout := 10 * Second, DisableKeepAlives := false } },
        created := pool.created + 1,
        started := pool.started ++ startWorkers 5 pool.created 1 } : Pool).queue = _)
    (fun it _ => by
      show shouldSkipDomain pool.failedDomains it.1.Host it.2 = false
      rw [hempty]; rfl)
    (Nat.le_refl 5)
  obtain ⟨p₃, hrun, hqueue, hatt, _, _, hrecs, _⟩ := deliverAll_failures
    [⟨⟨k₁, pool.created⟩, .completed ⟨503, s₁⟩, a₁, b₁⟩,
     ⟨⟨k₂, pool.created⟩, .completed ⟨503, s₂⟩, a₂, b₂⟩,
     ⟨⟨k₃, pool.created⟩, .completed ⟨503, s₃⟩, a₃, b₃⟩,
     ⟨⟨k₄, pool.created⟩, .completed ⟨503, s₄⟩, a₄, b₄⟩,
     ⟨⟨k₅, pool.created⟩, .completed ⟨503, s₅⟩, a₅, b₅⟩]
    [⟨r₁⟩, ⟨r₂⟩, ⟨r₃⟩, ⟨r₄⟩, ⟨r₅⟩] [] _ _
    (rfl : ({ pool with
        queue := some { id := pool.created, capacity := (5 : Int).toNat,
                        buffer := [⟨r₁⟩, ⟨r₂⟩, ⟨r₃⟩, ⟨r₄⟩, ⟨r₅⟩] },
        httpClient := some
          { Timeout := 15 * Second,
            Transport :=
              { MaxIdleConns := 20, MaxIdleConnsPerHost := 2,
                IdleConnTimeout := 10 * Second, DisableKeepAlives := false } },
        created := pool.created + 1,
        started := pool.started ++ startWorkers 5 pool.created 1 } : Pool).queue = _)
    rfl rfl
    (fun d hd => by
      have hkd : 1 ≤ d.worker.workerID ∧ d.worker.workerID ≤ 5 ∧ d.worker.queue = pool.created ∧
          ∃ s, d.exchange = .completed ⟨503, s⟩ := by
        simp only [List.mem_cons, List.mem_singleton, List.not_mem_nil, or_false] at hd
        rcases hd with rfl | rfl | rfl | rfl | rfl
        · exact ⟨(hk k₁ (by simp)).1, (hk k₁ (by simp)).2, rfl, _, rfl⟩
        · exact ⟨(hk k₂ (by simp)).1, (hk k₂ (by simp)).2, rfl, _, rfl⟩
        · exact ⟨(hk k₃ (by simp)).1, (hk k₃ (by simp)).2, rfl, _, rfl⟩
        · exact ⟨(hk k₄ (by simp)).1, (hk k₄ (by simp)).2, rfl, _, rfl⟩
        · exact ⟨(hk k₅ (by simp)).1, (hk k₅ (by simp)).2, rfl, _, rfl⟩
      obtain ⟨h1, h5, hq, s, hs⟩ := hkd
      refine ⟨?_, hq, fun j => ?_⟩
      · show d.worker ∈ pool.started ++ startWorkers 5 pool.created 1
        have hmem := startWorkers_mem 5 pool.created d.worker.workerID h1 h5
        have heta : d.worker = { workerID := d.worker.workerID, queue := pool.created } := by
          rw [← hq]
        rw [heta]
        exact List.mem_append_right _ hmem
      · rw [hs]
        simp [sendActivityPubMessageToInbox])
    (by simpa using hdistinct)
    (fun j _ => by
      show pool.failedDomains j.request.Host = none
      rw [hempty]; rfl)
  refine ⟨_, _, _, p₃, hinit, rfl, rfl, rfl, henq, rfl, hrun, hqueue, ?_, ?_⟩
  · rw [hatt]; rfl
  · intro x hx
    have hrec : p₃.failedDomains x.1.Host =
        some { count := 1, lastFailed := x.2.1, backoffUntil := x.2.2 + 1 * Minute } := by
      simp only [List.mem_cons, List.mem_singleton, List.not_mem_nil, or_false] at hx
      rcases hx with rfl | rfl | rfl | rfl | rfl
      · exact hrecs (⟨r₁⟩, ⟨⟨k₁, pool.created⟩, .completed ⟨503, s₁⟩, a₁, b₁⟩) (by simp)
      · exact hrecs (⟨r₂⟩, ⟨⟨k₂, pool.created⟩, .completed ⟨503, s₂⟩, a₂, b₂⟩) (by simp)
      · exact hrecs (⟨r₃⟩, ⟨⟨k₃, pool.created⟩, .completed ⟨503, s₃⟩, a₃, b₃⟩) (by simp)
      · exact hrecs (⟨r₄⟩, ⟨⟨k₄, pool.created⟩, .completed ⟨503, s₄⟩, a₄, b₄⟩) (by simp)
      · exact hrecs (⟨r₅⟩, ⟨⟨k₅, pool.created⟩, .completed ⟨503, s₅⟩, a₅, b₅⟩) (by simp)
    have hmin : (0 : Int) < 1 * Minute := by decide
    have hskip : ∀ now : Time, now < x.2.2 + 1 * Minute →
        shouldSkipDomain p₃.failedDomains x.1.Host now = true := by
      intro now hnow
      rw [shouldSkipDomain_of_some _ _ now _ hrec]
      simpa using hnow
    refine ⟨hrec, hskip _ (by linarith), fun r₆ now hhost hnow => ?_⟩
    simp [AddToOutboundQueue, hhost, hskip now hnow]

/-- Witness for C17: five hosts, the workers 1 to 5 in turn, and a sixth
request to the third host 9 nanoseconds after its failure. -/
theorem five_failing_hosts_scenario_witness :
    ∃ p₁ q p₂ p₃,
      InitOutboundWorkerPool initialPool 5 = some p₁ ∧ p₁.queue = some q ∧
      enqueueAll p₁
        [(⟨"h1.example", "/inbox"⟩, 1), (⟨"h2.example", "/inbox"⟩, 2),
         (⟨"h3.example", "/inbox"⟩, 3), (⟨"h4.example", "/inbox"⟩, 4),
         (⟨"h5.example", "/inbox"⟩, 5)] = .returned p₂ ∧
      deliverAll p₂
        [⟨⟨1, q.id⟩, .completed ⟨503, "503 Service Unavailable"⟩, 10, 11⟩,
         ⟨⟨2, q.id⟩, .completed ⟨503, "503 Service Unavailable"⟩, 20, 21⟩,
         ⟨⟨3, q.id⟩, .completed ⟨503, "503 Service Unavailable"⟩, 30, 31⟩,
         ⟨⟨4, q.id⟩, .completed ⟨503, "503 Service Unavailable"⟩, 40, 41⟩,
         ⟨⟨5, q.id⟩, .completed ⟨503, "503 Service Unavailable"⟩, 50, 51⟩] = .returned p₃ ∧
      p₃.failedDomains "h3.example" =
        some { count := 1, lastFailed := 30, backoffUntil := 31 + 1 * Minute } ∧
      shouldSkipDomain p₃.failedDomains "h3.example" 31 = true ∧
      AddToOutboundQueue p₃ ⟨"h3.example", "/outbox"⟩ 40 = .returned p₃ := by
  obtain ⟨p₁, q, p₂, p₃, h1, h2, _, _, h3, _, h4, _, _, h5⟩ :=
    five_failing_hosts_scenario initialPool rfl
      ⟨"h1.example", "/inbox"⟩ ⟨"h2.example", "/inbox"⟩ ⟨"h3.example", "/inbox"⟩
      ⟨"h4.example", "/inbox"⟩ ⟨"h5.example", "/inbox"⟩ (by decide)
      1 2 3 4 5 1 2 3 4 5 (by decide)
      "503 Service Unavailable" "503 Service Unavailable" "503 Service Unavailable"
      "503 Service Unavailable" "503 Service Unavailable"
      10 11 20 21 30 31 40 41 50 51
  obtain ⟨h6, h7, h8⟩ := h5 (⟨"h3.example", "/inbox"⟩, 30, 31) (by simp)
  exact ⟨p₁, q, p₂, p₃, h1, h2, h3, h4, h6, h7, h8 ⟨"h3.example", "/outbox"⟩ 40 rfl (by decide)⟩

/-! ## Traces of registry calls: lemmas -/

theorem priorCount_congr (reg reg' : Registry) (d : String) (h : reg' d = reg d) :
    priorCount reg' d = priorCount reg d := by
  simp only [priorCount, h]

/-- In a reachable registry every counter is non-negative. -/
theorem Reachable.counter_nonneg {reg : Registry} (hreach : Reachable reg) (d : String) :
    0 ≤ priorCount reg d :=
  Oni.priorCount_nonneg reg d (fun g hg => by have := hreach.count_pos d g hg; omega)

/-- In a reachable registry a domain has a record exactly when its counter
is positive. -/
theorem Reachable.record_iff {reg : Registry} (hreach : Reachable reg) (d : String) :
    (∃ f, reg d = some f) ↔ 0 < priorCount reg d := by
  constructor
  · rintro ⟨f, hf⟩
    have hpos := hreach.count_pos d f hf
    have hp : priorCount reg d = f.count := by simp [priorCount, hf]
    omega
  · intro h
    obtain ⟨f, hf, _⟩ := record_of_priorCount_pos reg d h
    exact ⟨f, hf⟩

/-- Counting along `pre ++ post` is counting along `pre`, then along
`post`. -/
theorem failuresSince_append (d : String) :
    ∀ (pre : List Op) (c : Nat) (post : List Op),
      failuresSince d c (pre ++ post) = failuresSince d (failuresSince d c pre) post
  | [], _, _ => rfl
  | .record _ _ _ :: pre, c, post => by
    simp only [List.cons_append, failuresSince]
    exact failuresSince_append d pre _ post
  | .reset _ :: pre, c, post => by
    simp only [List.cons_append, failuresSince]
    exact failuresSince_append d pre _ post

/-- Along calls without a reset for the domain, the count grows by the
number of `recordDomainFailure` calls for the domain. -/
theorem failuresSince_no_reset (d : String) :
    ∀ (ops : List Op) (c : Nat), (∀ op, op ∈ ops → Op.isResetOf d op = false) →
      failuresSince d c ops = c + ops.countP (Op.isRecordOf d)
  | [], c, _ => by simp [failuresSince]
  | .record d' t₁ t₂ :: ops, c, h => by
    have ih := failuresSince_no_reset d ops (if d' = d then c + 1 else c)
      (fun op hop => h op (List.mem_cons_of_mem _ hop))
    simp only [failuresSince, ih, List.countP_cons, Op.isRecordOf]
    by_cases hd : d' = d
    · simp only [hd, if_true, decide_True]; omega
    · simp only [hd, if_false, decide_False]; simp
  | .reset d' :: ops, c, h => by
    have hne : d' ≠ d := by
      have := h (.reset d') (List.mem_cons_self _ _)
      simpa [Op.isResetOf] using this
    have ih := failuresSince_no_reset d ops c
      (fun op hop => h op (List.mem_cons_of_mem _ hop))
    simp only [failuresSince, if_neg hne, ih, List.countP_cons, Op.isRecordOf]
    simp

/-- After the most recent reset for the domain, the count is the number of
`recordDomainFailure` calls for the domain that follow it. -/
theorem failuresSinceReset_after_reset (d : String) (pre post : List Op)
    (h : ∀ op, op ∈ post → Op.isResetOf d op = false) :
    failuresSinceReset d (pre ++ .reset d :: post) = post.countP (Op.isRecordOf d) := by
  unfold failuresSinceReset
  rw [failuresSince_append]
  simp only [failuresSince, if_true]
  rw [failuresSince_no_reset d post 0 h]
  omega

/-- Without a reset for the domain, the count is the number of
`recordDomainFailure` calls for the domain since the start. -/
theorem failuresSinceReset_never_reset (d : String) (ops : List Op)
    (h : ∀ op, op ∈ ops → Op.isResetOf d op = false) :
    failuresSinceReset d ops = ops.countP (Op.isRecordOf d) := by
  unfold failuresSinceReset
  rw [failuresSince_no_reset d ops 0 h]
  omega

/-- From a reachable registry every sequence of calls runs without panic,
ends in a reachable registry, and moves the counter of each domain as
`failuresSince` counts. -/
theorem runOps_count (d : String) :
    ∀ (ops : List Op) (reg : Registry) (c : Nat), Reachable reg →
      priorCount reg d = (c : Int) →
      ∃ reg', runOps reg ops = some reg' ∧ Reachable reg' ∧
        priorCount reg' d = (failuresSince d c ops : Int)
  | [], reg, c, hreach, hc => ⟨reg, rfl, hreach, hc⟩
  | .record d' t₁ t₂ :: ops, reg, c, hreach, hc => by
    have hstep := recordDomainFailure_step reg d' t₁ t₂ (hreach.counter_nonneg d')
    have hreach' := Reachable.record _ _ _ _ _ hreach hstep
    have hc' : priorCount
        (mapSet reg d' { count := priorCount reg d' + 1, lastFailed := t₁,
                          backoffUntil := t₂ + specBackoff (priorCount reg d' + 1) }) d
        = ((if d' = d then c + 1 else c : Nat) : Int) := by
      by_cases hd : d' = d
      · subst hd
        rw [priorCount_mapSet, if_pos rfl]
        show priorCount reg d' + 1 = ((c + 1 : Nat) : Int)
        rw [hc]; simp
      · rw [if_neg hd, priorCount_congr reg _ d (mapSet_other _ _ _ _ (Ne.symm hd)), hc]
    obtain ⟨reg', hrun, hr, hcount⟩ := runOps_count d ops _ _ hreach' hc'
    exact ⟨reg', by simp only [runOps, applyOp, hstep]; exact hrun, hr, hcount⟩
  | .reset d' :: ops, reg, c, hreach, hc => by
    have hreach' := Reachable.reset reg d' hreach
    have hc' : priorCount (resetDomainFailure reg d') d
        = ((if d' = d then 0 else c : Nat) : Int) := by
      by_cases hd : d' = d
      · subst hd
        rw [if_pos rfl, priorCount_of_none _ _ (hreach.reset_none d')]
        rfl
      · rw [if_neg hd, priorCount_congr reg _ d (resetDomainFailure_other _ _ _ (Ne.symm hd)), hc]
    obtain ⟨reg', hrun, hr, hcount⟩ := runOps_count d ops _ _ hreach' hc'
    exact ⟨reg', by simp only [runOps, applyOp]; exact hrun, hr, hcount⟩

/-- A run over `pre ++ post` is the run over `pre` followed by the run over
`post`. -/
theorem runOps_append :
    ∀ (pre : List Op) (reg : Registry) (post : List Op),
      runOps reg (pre ++ post) =
        match runOps reg pre with
        | none => none
        | some mid => runOps mid post
  | [], _, _ => rfl
  | op :: pre, reg, post => by
    simp only [List.cons_append, runOps]
    cases applyOp reg op with
    | none => rfl
    | some next => exact runOps_append pre next post

/-- The reachable registries are the results of the sequences of calls run
from the empty registry. -/
theorem reachable_iff_runOps (reg : Registry) :
    Reachable reg ↔ ∃ ops, runOps emptyRegistry ops = some reg := by
  constructor
  · intro hreach
    induction hreach with
    | init => exact ⟨[], rfl⟩
    | record reg reg' d t₁ t₂ _ hstep ih =>
      obtain ⟨ops, hops⟩ := ih
      refine ⟨ops ++ [.record d t₁ t₂], ?_⟩
      rw [runOps_append, hops]
      simp only [runOps, applyOp, hstep]
    | reset reg d _ ih =>
      obtain ⟨ops, hops⟩ := ih
      refine ⟨ops ++ [.reset d], ?_⟩
      rw [runOps_append, hops]
      simp only [runOps, applyOp]
  · rintro ⟨ops, hops⟩
    obtain ⟨reg', hrun, hr, _⟩ := runOps_count "" ops emptyRegistry 0 Reachable.init rfl
    rw [hops] at hrun
    rw [Option.some.inj hrun]
    exact hr

/-- Every sequence of calls from the empty registry runs without panic, and
the counter of each domain afterwards is the number of its failures since
its most recent reset. -/
theorem runOps_from_empty (ops : List Op) :
    ∃ reg, runOps emptyRegistry ops = some reg ∧ Reachable reg ∧
      ∀ d, priorCount reg d = (failuresSinceReset d ops : Int) := by
  obtain ⟨reg, hrun, hreach, _⟩ := runOps_count "" ops emptyRegistry 0 Reachable.init rfl
  refine ⟨reg, hrun, hreach, fun d => ?_⟩
  obtain ⟨reg', hrun', _, hcount⟩ := runOps_count d ops emptyRegistry 0 Reachable.init rfl
  rw [hrun] at hrun'
  rw [Option.some.inj hrun']
  exact hcount

/-- The table lookup of `recordDomainFailure` is the lookup at
`backoffIndex`. -/
theorem recordDomainFailure_eq_lookup (reg : Registry) (d : String) (t₁ t₂ : Time) :
    recordDomainFailure reg d t₁ t₂ =
      match sliceIndex circuitBreakerBackoffDurations (backoffIndex reg d) with
      | none => none
      | some backoffDuration =>
        some (mapSet reg d
          { count := priorCount reg d + 1, lastFailed := t₁,
            backoffUntil := t₂ + backoffDuration }) := by
  cases hr : reg d <;> simp only [recordDomainFailure, backoffIndex, priorCount, hr]

/-- The index for a non-negative counter `c` is `min(c, 4)`. -/
theorem backoffIndex_eq (reg : Registry) (d : String) (h : 0 ≤ priorCount reg d) :
    backoffIndex reg d = min (priorCount reg d) 4 := by
  have hlen : (circuitBreakerBackoffDurations.length : Int) = 5 := by decide
  have hidx : backoffIndex reg d =
      if priorCount reg d + 1 - 1 ≥ (circuitBreakerBackoffDurations.length : Int) then
        (circuitBreakerBackoffDurations.length : Int) - 1
      else priorCount reg d + 1 - 1 := by
    cases hr : reg d <;> simp only [backoffIndex, priorCount, hr]
  rw [hidx, hlen]
  split <;> omega

/-! ## Traces of registry calls: theorems -/

/-- C21: `shouldSkipDomain` is read-only. For every registry, domain and
time the registry after the call is the registry before it, also after any
run of checks; a record whose `backoffUntil` has elapsed is reported as
admitted and is still there after the check. `AddToOutboundQueue`, which
makes the check, leaves the registry as it was, and a
`recordDomainFailure` for any domain keeps every record present: only
`resetDomainFailure` takes a record away. -/
theorem shouldSkipDomain_read_only (reg : Registry) (d : String) (now : Time) :
    (shouldSkipDomainCall reg d now).2 = reg ∧
    (shouldSkipDomainCall reg d now).1 = shouldSkipDomain reg d now ∧
    (∀ checks, checksRun reg checks = reg) ∧
    (∀ f, reg d = some f → f.backoffUntil ≤ now →
      (shouldSkipDomainCall reg d now).1 = false ∧
      (shouldSkipDomainCall reg d now).2 d = some f) ∧
    (∀ (pool pool' : Pool) (req : Request) (t : Time),
      AddToOutboundQueue pool req t = .returned pool' →
      pool'.failedDomains = pool.failedDomains) ∧
    (∀ (d' : String) (t₁ t₂ : Time) (reg' : Registry),
      recordDomainFailure reg d' t₁ t₂ = some reg' → reg d ≠ none → reg' d ≠ none) := by
  have hcall : ∀ (r : Registry) (x : String) (t : Time), (shouldSkipDomainCall r x t).2 = r := by
    intro r x t
    unfold shouldSkipDomainCall
    cases r x <;> rfl
  refine ⟨hcall reg d now, ?_, ?_, ?_, ?_, ?_⟩
  · unfold shouldSkipDomainCall shouldSkipDomain
    cases reg d <;> rfl
  · intro checks
    induction checks with
    | nil => rfl
    | cons c rest ih =>
      obtain ⟨x, t⟩ := c
      simp only [checksRun, hcall]
      exact ih
  · intro f hf hle
    refine ⟨?_, by rw [hcall]; exact hf⟩
    simp only [shouldSkipDomainCall, hf, decide_eq_false_iff_not]
    exact not_lt.mpr hle
  · intro pool pool' req t h
    unfold AddToOutboundQueue at h
    split at h
    · rw [← Outcome.returned.inj h]
    · split at h
      · exact absurd h (by simp)
      · split at h
        · rw [← Outcome.returned.inj h]
        · exact absurd h (by simp)
  · intro d' t₁ t₂ reg' hstep hpresent
    by_cases hd : d = d'
    · subst hd
      rw [recordDomainFailure_eq_lookup] at hstep
      split at hstep
      · exact absurd hstep (by simp)
      · rw [← Option.some.inj hstep, mapSet_same]
        simp
    · rw [recordDomainFailure_frame reg reg' d' d t₁ t₂ hstep hd]
      exact hpresent

/-- Witness for C21: a record backed off until 100 is checked at 5000,
long after; it is admitted and still in the registry. -/
theorem shouldSkipDomain_read_only_witness :
    (shouldSkipDomainCall (mapSet emptyRegistry "a.example" ⟨2, 40, 100⟩) "a.example" 5000).1
      = false ∧
    (shouldSkipDomainCall (mapSet emptyRegistry "a.example" ⟨2, 40, 100⟩) "a.example" 5000).2
      "a.example" = some ⟨2, 40, 100⟩ :=
  (shouldSkipDomain_read_only (mapSet emptyRegistry "a.example" ⟨2, 40, 100⟩)
    "a.example" 5000).2.2.2.1 ⟨2, 40, 100⟩ (by decide) (by decide)

/-- C22: every sequence of `recordDomainFailure` and `resetDomainFailure`
calls from the empty registry runs without panic, and in the registry it
ends in a domain has a record if and only if at least one
`recordDomainFailure` for that domain has occurred since its most recent
`resetDomainFailure`: among the calls after that reset, or among all calls
when the domain was never reset. -/
theorem record_iff_failure_since_reset (ops : List Op) :
    ∃ reg, runOps emptyRegistry ops = some reg ∧ ∀ d,
      ((∃ f, reg d = some f) ↔ 1 ≤ failuresSinceReset d ops) ∧
      ((∀ op, op ∈ ops → Op.isResetOf d op = false) →
        ((∃ f, reg d = some f) ↔ 1 ≤ ops.countP (Op.isRecordOf d))) ∧
      (∀ pre post, ops = pre ++ .reset d :: post →
        (∀ op, op ∈ post → Op.isResetOf d op = false) →
        ((∃ f, reg d = some f) ↔ 1 ≤ post.countP (Op.isRecordOf d))) := by
  obtain ⟨reg, hrun, hreach, hcount⟩ := runOps_from_empty ops
  refine ⟨reg, hrun, fun d => ?_⟩
  have hiff : (∃ f, reg d = some f) ↔ 1 ≤ failuresSinceReset d ops := by
    rw [hreach.record_iff d, hcount d]
    omega
  refine ⟨hiff, fun hnever => ?_, fun pre post hops hlast => ?_⟩
  · rw [hiff, failuresSinceReset_never_reset d ops hnever]
  · rw [hiff, hops, failuresSinceReset_after_reset d pre post hlast]

/-- Witness for C22: two failures of `a`, a reset of `a`, a failure of `b`:
`a` has no record and `b` has one. -/
theorem record_iff_failure_since_reset_witness :
    ∃ reg,
      runOps emptyRegistry
        [.record "a.example" 0 1, .record "a.example" 2 3, .reset "a.example",
         .record "b.example" 4 5] = some reg ∧
      ¬ (∃ f, reg "a.example" = some f) ∧ (∃ f, reg "b.example" = some f) := by
  obtain ⟨reg, hrun, h⟩ := record_iff_failure_since_reset
    [.record "a.example" 0 1, .record "a.example" 2 3, .reset "a.example",
     .record "b.example" 4 5]
  refine ⟨reg, hrun, ?_, ?_⟩
  · rw [(h "a.example").1]; decide
  · rw [(h "b.example").1]; decide

/-- C29: in every registry reachable from the empty registry by
`recordDomainFailure` and `resetDomainFailure` calls, the index at which
`recordDomainFailure` reads `circuitBreakerBackoffDurations` is within 0..4
(it is `min(c, 4)` for the count `c` before the call), the table has an
entry there, and the call returns with that entry as backoff: the lookup
never goes out of bounds. -/
theorem backoffIndex_in_range (reg : Registry) (hreach : Reachable reg) (d : String)
    (t₁ t₂ : Time) :
    0 ≤ backoffIndex reg d ∧ backoffIndex reg d ≤ 4 ∧
    backoffIndex reg d < (circuitBreakerBackoffDurations.length : Int) ∧
    backoffIndex reg d = min (priorCount reg d) 4 ∧
    ∃ backoffDuration,
      sliceIndex circuitBreakerBackoffDurations (backoffIndex reg d) = some backoffDuration ∧
      recordDomainFailure reg d t₁ t₂ =
        some (mapSet reg d
          { count := priorCount reg d + 1, lastFailed := t₁,
            backoffUntil := t₂ + backoffDuration }) := by
  have h0 := hreach.counter_nonneg d
  have hidx := backoffIndex_eq reg d h0
  have hlen : (circuitBreakerBackoffDurations.length : Int) = 5 := by decide
  have hstep := recordDomainFailure_step reg d t₁ t₂ h0
  rw [recordDomainFailure_eq_lookup] at hstep
  refine ⟨by rw [hidx]; omega, by rw [hidx]; omega, by rw [hidx, hlen]; omega, hidx, ?_⟩
  cases hl : sliceIndex circuitBreakerBackoffDurations (backoffIndex reg d) with
  | none => rw [hl] at hstep; exact absurd hstep (by simp)
  | some dur => exact ⟨dur, rfl, by rw [recordDomainFailure_eq_lookup, hl]⟩

/-- Witness for C29: after seven failures of a domain the index is 4. -/
theorem backoffIndex_in_range_witness :
    ∃ reg, runOps emptyRegistry (List.replicate 7 (.record "a.example" 0 0)) = some reg ∧
      Reachable reg ∧ 0 ≤ backoffIndex reg "a.example" ∧ backoffIndex reg "a.example" ≤ 4 := by
  obtain ⟨reg, hrun, hreach, _⟩ :=
    runOps_from_empty (List.replicate 7 (.record "a.example" 0 0))
  have h := backoffIndex_in_range reg hreach "a.example" 0 0
  exact ⟨reg, hrun, hreach, h.1, h.2.1⟩

/-- C30: every sequence of `recordDomainFailure` and `resetDomainFailure`
calls from the empty registry runs without panic, and in the registry it ends
in the count of each record equals the number of `recordDomainFailure` calls
for its domain since the domain's most recent `resetDomainFailure` (among
the calls after that reset, or among all calls when there was none). Hence
the count is at least 1, and `resetDomainFailure` deletes the record: the
`count > 0` guard never keeps an existing record. -/
theorem count_eq_failures_since_reset (ops : List Op) :
    ∃ reg, runOps emptyRegistry ops = some reg ∧ ∀ d f, reg d = some f →
      f.count = (failuresSinceReset d ops : Int) ∧
      ((∀ op, op ∈ ops → Op.isResetOf d op = false) →
        f.count = (ops.countP (Op.isRecordOf d) : Int)) ∧
      (∀ pre post, ops = pre ++ .reset d :: post →
        (∀ op, op ∈ post → Op.isResetOf d op = false) →
        f.count = (post.countP (Op.isRecordOf d) : Int)) ∧
      1 ≤ f.count ∧
      resetDomainFailure reg d = mapDelete reg d ∧
      resetDomainFailure reg d d = none := by
  obtain ⟨reg, hrun, hreach, hcount⟩ := runOps_from_empty ops
  refine ⟨reg, hrun, fun d f hf => ?_⟩
  have hp : priorCount reg d = f.count := by simp [priorCount, hf]
  have heq : f.count = (failuresSinceReset d ops : Int) := by rw [← hp, hcount d]
  have hpos : 1 ≤ f.count := hreach.count_pos d f hf
  refine ⟨heq, fun hnever => ?_, fun pre post hops hlast => ?_, hpos,
    resetDomainFailure_of_pos reg d f hf (by omega), hreach.reset_none d⟩
  · rw [heq, failuresSinceReset_never_reset d ops hnever]
  · rw [heq, hops, failuresSinceReset_after_reset d pre post hlast]

/-- Witness for C30: a failure, a reset and three more failures of one domain
leave a record of count 3. -/
theorem count_eq_failures_since_reset_witness :
    ∃ reg f,
      runOps emptyRegistry
        [.record "a.example" 0 1, .reset "a.example", .record "a.example" 2 3,
         .record "a.example" 4 5, .record "a.example" 6 7] = some reg ∧
      reg "a.example" = some f ∧ f.count = 3 ∧
      resetDomainFailure reg "a.example" "a.example" = none := by
  obtain ⟨reg, hrun, h⟩ := count_eq_failures_since_reset
    [.record "a.example" 0 1, .reset "a.example", .record "a.example" 2 3,
     .record "a.example" 4 5, .record "a.example" 6 7]
  have hreg : reg "a.example" ≠ none := by
    intro hnone
    have hrun' : runOps emptyRegistry
        [.record "a.example" 0 1, .reset "a.example", .record "a.example" 2 3,
         .record "a.example" 4 5, .record "a.example" 6 7] ≠ none := by simp [hrun]
    have hval : (runOps emptyRegistry
        [.record "a.example" 0 1, .reset "a.example", .record "a.example" 2 3,
         .record "a.example" 4 5, .record "a.example" 6 7]).map (fun r => r "a.example")
        = some (some ⟨3, 6, 7 + 15 * Minute⟩) := by decide
    rw [hrun] at hval
    simp only [Option.map_some', Option.some.injEq] at hval
    rw [hnone] at hval
    exact absurd hval (by simp)
  obtain ⟨f, hf⟩ := Option.ne_none_iff_exists'.mp hreg
  obtain ⟨hc, _, _, _, _, hgone⟩ := h "a.example" f hf
  exact ⟨reg, f, hrun, hf, by rw [hc]; decide, hgone⟩

/-! ## Queue order -/

/-- A worker iteration that returns has received the oldest job of the
queue and handed its request to the HTTP client; the other jobs stay, in
order. -/
theorem workerIteration_claims_head (pool p' : Pool) (q : Chan) (w : WorkerStart)
    (exchange : Exchange) (t₁ t₂ : Time) (hq : pool.queue = some q)
    (h : workerIteration pool w exchange t₁ t₂ = .returned p') :
    ∃ job rest, q.buffer = job :: rest ∧ p'.queue = some { q with buffer := rest } ∧
      p'.attempts = pool.attempts ++ [job.request] := by
  unfold workerIteration at h
  simp only [hq] at h
  split at h
  · cases hb : q.buffer with
    | nil => simp only [hb] at h; exact absurd h (by simp)
    | cons job rest =>
      simp only [hb] at h
      cases hbody : workerBody pool.failedDomains job exchange t₁ t₂ with
      | none => simp only [hbody] at h; exact absurd h (by simp)
      | some reg =>
        simp only [hbody] at h
        rw [← Outcome.returned.inj h]
        exact ⟨job, rest, rfl, rfl, rfl⟩
  · exact absurd h (by simp)

/-- An `AddToOutboundQueue` call that returns keeps the buffer within the
capacity of the queue. -/
theorem AddToOutboundQueue_bounded (pool pool' : Pool) (req : Request) (now : Time)
    (h : AddToOutboundQueue pool req now = .returned pool')
    (hb : ∀ c, pool.queue = some c → c.buffer.length ≤ c.capacity) :
    ∀ c, pool'.queue = some c → c.buffer.length ≤ c.capacity := by
  unfold AddToOutboundQueue at h
  split at h
  · rw [← Outcome.returned.inj h]; exact hb
  · split at h
    · exact absurd h (by simp)
    · next q hq =>
      split at h
      · next hroom =>
        rw [← Outcome.returned.inj h]
        intro c hc
        simp only [Option.some.injEq] at hc
        rw [← hc]
        simp only [List.length_append, List.length_singleton]
        omega
      · exact absurd h (by simp)

/-- C23: for every request to a host that is not suppressed and every queue
holding fewer jobs than its capacity, `AddToOutboundQueue` returns with the
job appended at the tail of the queue; the jobs queued before stay, in their
order, the buffer is still within the capacity, and nothing else changes. A
worker iteration that then returns has received the head of the queue, the
job accepted first, and leaves the later ones in order (FIFO). Every
`AddToOutboundQueue` call that returns keeps the buffer within the
capacity. -/
theorem AddToOutboundQueue_appends (pool : Pool) (q : Chan) (req : Request) (now : Time)
    (hq : pool.queue = some q)
    (hadm : shouldSkipDomain pool.failedDomains req.Host now = false)
    (hroom : q.buffer.length < q.capacity) :
    ∃ pool', AddToOutboundQueue pool req now = .returned pool' ∧
      pool'.queue = some { q with buffer := q.buffer ++ [{ request := req }] } ∧
      pool'.failedDomains = pool.failedDomains ∧ pool'.attempts = pool.attempts ∧
      (q.buffer ++ [({ request := req } : Job)]).length ≤ q.capacity ∧
      (∀ (w : WorkerStart) (exchange : Exchange) (t₁ t₂ : Time) (p'' : Pool),
        workerIteration pool' w exchange t₁ t₂ = .returned p'' →
        ∃ job rest, q.buffer ++ [({ request := req } : Job)] = job :: rest ∧
          (∀ oldest others, q.buffer = oldest :: others →
            job = oldest ∧ rest = others ++ [{ request := req }]) ∧
          (q.buffer = [] → job = { request := req } ∧ rest = []) ∧
          p''.queue = some { q with buffer := rest } ∧
          p''.attempts = pool.attempts ++ [job.request]) ∧
      (∀ (p r : Pool) (rq : Request) (t : Time),
        AddToOutboundQueue p rq t = .returned r →
        (∀ c, p.queue = some c → c.buffer.length ≤ c.capacity) →
        ∀ c, r.queue = some c → c.buffer.length ≤ c.capacity) := by
  have hstep := AddToOutboundQueue_room pool q req now hq hadm hroom
  refine ⟨_, hstep, rfl, rfl, rfl, ?_, ?_, ?_⟩
  · simp only [List.length_append, List.length_singleton]
    omega
  · intro w exchange t₁ t₂ p'' hw
    obtain ⟨job, rest, hbuf, hqueue, hatt⟩ :=
      workerIteration_claims_head _ p'' { q with buffer := q.buffer ++ [{ request := req }] }
        w exchange t₁ t₂ rfl hw
    refine ⟨job, rest, hbuf, ?_, ?_, hqueue, hatt⟩
    · intro oldest others hold
      have hbuf' : q.buffer ++ [({ request := req } : Job)] = job :: rest := hbuf
      rw [hold, List.cons_append] at hbuf'
      exact ⟨(List.cons.inj hbuf').1.symm, (List.cons.inj hbuf').2.symm⟩
    · intro hnil
      have hbuf' : q.buffer ++ [({ request := req } : Job)] = job :: rest := hbuf
      rw [hnil, List.nil_append] at hbuf'
      exact ⟨(List.cons.inj hbuf').1.symm, (List.cons.inj hbuf').2.symm⟩
  · intro p r rq t h hb
    exact AddToOutboundQueue_bounded p r rq t h hb

/-- Witness for C23: a queue of capacity 3 holding two jobs takes a third,
and the next worker iteration delivers the oldest of the three. -/
theorem AddToOutboundQueue_appends_witness :
    ∃ pool' : Pool,
      AddToOutboundQueue
        { queue := some ⟨0, 3, [⟨⟨"a.example", "/1"⟩⟩, ⟨⟨"b.example", "/2"⟩⟩]⟩,
          httpClient := none, failedDomains := emptyRegistry,
          started := [⟨1, 0⟩], created := 1, attempts := [] }
        ⟨"c.example", "/3"⟩ 50 = .returned pool' ∧
      pool'.queue = some ⟨0, 3,
        [⟨⟨"a.example", "/1"⟩⟩, ⟨⟨"b.example", "/2"⟩⟩, ⟨⟨"c.example", "/3"⟩⟩]⟩ := by
  obtain ⟨pool', h1, h2, _⟩ := AddToOutboundQueue_appends
    { queue := some ⟨0, 3, [⟨⟨"a.example", "/1"⟩⟩, ⟨⟨"b.example", "/2"⟩⟩]⟩,
      httpClient := none, failedDomains := emptyRegistry,
      started := [⟨1, 0⟩], created := 1, attempts := [] }
    ⟨0, 3, [⟨⟨"a.example", "/1"⟩⟩, ⟨⟨"b.example", "/2"⟩⟩]⟩
    ⟨"c.example", "/3"⟩ 50 rfl (by decide) (by decide)
  exact ⟨pool', h1, h2⟩

/-! ## Password compression: theorems -/

/-- C25: for every password of at most 72 bytes, the empty password and
passwords of exactly 72 bytes included, `compressPassword` returns the input
bytes unchanged. -/
theorem compressPassword_short (sum512 : Bytes → Digest512) (password : Bytes)
    (h : password.length ≤ 72) :
    compressPassword sum512 password = password ∧
    compressPassword sum512 [] = [] := by
  constructor
  · unfold compressPassword
    rw [if_neg (by omega)]
  · rfl

/-- Witness for C25: a password of exactly 72 bytes. -/
theorem compressPassword_short_witness :
    compressPassword zeroSum512 (List.replicate 72 97) = List.replicate 72 97 :=
  (compressPassword_short zeroSum512 (List.replicate 72 97) (by decide)).1

/-- C26: for every password longer than 72 bytes, `compressPassword`
returns exactly the SHA-512 digest of the password, which is 64 bytes
long. -/
theorem compressPassword_long (sum512 : Bytes → Digest512) (password : Bytes)
    (h : 72 < password.length) :
    compressPassword sum512 password = (sum512 password).val ∧
    (compressPassword sum512 password).length = 64 := by
  have heq : compressPassword sum512 password = (sum512 password).val := by
    unfold compressPassword
    rw [if_pos h]
  exact ⟨heq, by rw [heq]; exact (sum512 password).property⟩

/-- Witness for C26: a password of 73 bytes. -/
theorem compressPassword_long_witness :
    compressPassword zeroSum512 (List.replicate 73 97) =
      (zeroSum512 (List.replicate 73 97)).val ∧
    (compressPassword zeroSum512 (List.replicate 73 97)).length = 64 :=
  compressPassword_long zeroSum512 (List.replicate 73 97) (by decide)

/-- C27 (as stated, refuted): for a password of exactly 72 bytes
`compressPassword` returns 72 bytes, which is not less than 72. -/
theorem compressPassword_length_counterexample :
    (compressPassword zeroSum512 (List.replicate 72 97)).length = 72 ∧
    ¬ (∀ (sum512 : Bytes → Digest512) (password : Bytes),
        (compressPassword sum512 password).length < 72) := by
  refine ⟨by decide, fun h => ?_⟩
  have h' := h zeroSum512 (List.replicate 72 97)
  revert h'
  decide

/-- C27 (amended): for every password, the byte string returned by
`compressPassword` is at most 72 bytes long: it has the length of the
password when that is at most 72, and 64 bytes otherwise. It is less than 72
bytes long exactly when the password is not 72 bytes long. -/
theorem compressPassword_length (sum512 : Bytes → Digest512) (password : Bytes) :
    (compressPassword sum512 password).length ≤ 72 ∧
    (password.length ≤ 72 → (compressPassword sum512 password).length = password.length) ∧
    (72 < password.length → (compressPassword sum512 password).length = 64) ∧
    ((compressPassword sum512 password).length < 72 ↔ password.length ≠ 72) := by
  by_cases h : password.length > 72
  · have heq : compressPassword sum512 password = (sum512 password).val := by
      unfold compressPassword
      rw [if_pos h]
    have hlen : (compressPassword sum512 password).length = 64 := by
      rw [heq]; exact (sum512 password).property
    refine ⟨by omega, fun h' => by omega, fun _ => hlen, by omega⟩
  · have heq : compressPassword sum512 password = password := by
      unfold compressPassword
      rw [if_neg h]
    rw [heq]
    refine ⟨by omega, fun _ => rfl, fun h' => by omega, by omega⟩

/-- Witness for C27 (amended): passwords of 71 and of 100 bytes. -/
theorem compressPassword_length_witness :
    (compressPassword zeroSum512 (List.replicate 71 97)).length = 71 ∧
    (compressPassword zeroSum512 (List.replicate 100 97)).length = 64 :=
  ⟨(compressPassword_length zeroSum512 (List.replicate 71 97)).2.1 (by decide),
   (compressPassword_length zeroSum512 (List.replicate 100 97)).2.2.1 (by decide)⟩

/-! ## Pool sizing: range of the result -/

/-- The result for an `int64` follower count: 10 plus the truncated
hundredth of the count, capped at 50. -/
theorem getOutboundWorkerPoolSize_value (n : Int)
    (hlo : -9223372036854775808 ≤ n) (hhi : n ≤ 9223372036854775807) :
    getOutboundWorkerPoolSize n none = min (10 + Int.tdiv n 100) 50 := by
  simp only [getOutboundWorkerPoolSize, wrapInt64, minWorkers, maxWorkers, tdiv_hundred]
  split <;> split <;> omega

/-- C28 (as stated, refuted): for the follower count -100 the result is 9,
below `minWorkers`; for -2000 it is -10, and `InitOutboundWorkerPool`
panics on it. -/
theorem getOutboundWorkerPoolSize_range_counterexample :
    getOutboundWorkerPoolSize (-100) none = 9 ∧
    getOutboundWorkerPoolSize (-2000) none = -10 ∧
    InitOutboundWorkerPool initialPool (getOutboundWorkerPoolSize (-2000) none) = none ∧
    ¬ (∀ n : Int, -9223372036854775808 ≤ n → n ≤ 9223372036854775807 →
        minWorkers ≤ getOutboundWorkerPoolSize n none ∧
        getOutboundWorkerPoolSize n none ≤ maxWorkers) := by
  refine ⟨by decide, by decide, rfl, fun h => ?_⟩
  have h' := (h (-100) (by decide) (by decide)).1
  revert h'
  decide

/-- C28 (amended): for every `int64` follower count `n ≥ 0`, and whenever the
lookup fails, the result of `getOutboundWorkerPoolSize` lies between
`minWorkers` (10) and `maxWorkers` (50) inclusive, and
`InitOutboundWorkerPool` returns on it with a queue of that positive
capacity. For every `int64` count the result is at most 50; it is at least 10
exactly when `n > -100`, and it is negative, so that
`InitOutboundWorkerPool` panics, exactly when `n ≤ -1100`. -/
theorem getOutboundWorkerPoolSize_range (n : Int)
    (hlo : -9223372036854775808 ≤ n) (hhi : n ≤ 9223372036854775807) (pool : Pool) :
    getOutboundWorkerPoolSize n none ≤ maxWorkers ∧
    (minWorkers ≤ getOutboundWorkerPoolSize n none ↔ -100 < n) ∧
    (getOutboundWorkerPoolSize n none < 0 ↔ n ≤ -1100) ∧
    (n ≤ -1100 → InitOutboundWorkerPool pool (getOutboundWorkerPoolSize n none) = none) ∧
    (0 ≤ n →
      minWorkers ≤ getOutboundWorkerPoolSize n none ∧
      ∃ pool' q, InitOutboundWorkerPool pool (getOutboundWorkerPoolSize n none) = some pool' ∧
        pool'.queue = some q ∧ (q.capacity : Int) = getOutboundWorkerPoolSize n none ∧
        0 < q.capacity) ∧
    (∀ e : String,
      minWorkers ≤ getOutboundWorkerPoolSize n (some e) ∧
      getOutboundWorkerPoolSize n (some e) ≤ maxWorkers) := by
  have hval := getOutboundWorkerPoolSize_value n hlo hhi
  rw [tdiv_hundred] at hval
  have hmin : minWorkers = 10 := rfl
  have hmax : maxWorkers = 50 := rfl
  have hle : getOutboundWorkerPoolSize n none ≤ 50 := by
    rw [hval]; split <;> omega
  have h10 : 10 ≤ getOutboundWorkerPoolSize n none ↔ -100 < n := by
    rw [hval]; split <;> omega
  have hneg : getOutboundWorkerPoolSize n none < 0 ↔ n ≤ -1100 := by
    rw [hval]; split <;> omega
  refine ⟨by rw [hmax]; exact hle, by rw [hmin]; exact h10, hneg, ?_, ?_, ?_⟩
  · intro hn
    rw [InitOutboundWorkerPool, if_pos (hneg.mpr hn)]
  · intro hn
    have hge : 10 ≤ getOutboundWorkerPoolSize n none := h10.mpr (by omega)
    refine ⟨by rw [hmin]; exact hge, _, _,
      by rw [InitOutboundWorkerPool, if_neg (by omega)], rfl, ?_, ?_⟩
    · exact Int.toNat_of_nonneg (by omega)
    · show 0 < (getOutboundWorkerPoolSize n none).toNat
      omega
  · intro e
    have he : getOutboundWorkerPoolSize n (some e) = 20 := rfl
    rw [he, hmin, hmax]
    exact ⟨by decide, by decide⟩

/-- Witness for C28 (amended): the follower count 950 gives 19 workers and a
queue of capacity 19. -/
theorem getOutboundWorkerPoolSize_range_witness :
    minWorkers ≤ getOutboundWorkerPoolSize 950 none ∧
    getOutboundWorkerPoolSize 950 none ≤ maxWorkers ∧
    ∃ pool' q, InitOutboundWorkerPool initialPool (getOutboundWorkerPoolSize 950 none)
        = some pool' ∧ pool'.queue = some q ∧ 0 < q.capacity := by
  have h := getOutboundWorkerPoolSize_range 950 (by decide) (by decide) initialPool
  obtain ⟨hmin, pool', q, h1, h2, _, h3⟩ := h.2.2.2.2.1 (by decide)
  exact ⟨hmin, h.1, pool', q, h1, h2, h3⟩

end Oni
